import Mathlib

/-!
Verification of the Tetris rules engine (`src/tetris.ts`).

The engine is embedded shallowly: the mutable `TetrisGame` class becomes a
`State` structure passed explicitly, JS numbers used as timers become `ℚ`,
integer-valued counters become `Nat`/`Int`, and `Math.random` becomes an
explicit stream `rng : Nat → Nat` carried in the state together with a cursor
`rngIdx` (each draw reads `rng rngIdx % bound`, matching
`Math.floor(Math.random() * bound)`, and advances the cursor).  The piece
catalog (`tetromino.ts`) is not part of the repository snapshot; its data is
modelled from the spec where noted.  Unbounded `while` loops of the source are
given explicit fuel chosen large enough that, on every input where the source
terminates, the fueled loop computes the same result.
-/

namespace Tetris

/-- The 7 piece types (`PieceType` in `tetromino.ts`; the set and its names
appear in `SPAWN_POSITIONS` in `tetris.ts`). -/
inductive PieceType where
  | I | O | T | S | Z | J | L
deriving DecidableEq, Repr

/-- Modelled from the spec: `PIECE_TYPES` lives in the missing `tetromino.ts`;
the spec fixes a closed set of 7 types, listed here in the order of
`SPAWN_POSITIONS` in `tetris.ts`. -/
def PIECE_TYPES : List PieceType :=
  [PieceType.I, PieceType.O, PieceType.T, PieceType.S, PieceType.Z,
   PieceType.J, PieceType.L]

/-- `GameState` in `tetris.ts`: 'playing' | 'paused' | 'over'. -/
inductive GamePhase where
  | playing | paused | over
deriving DecidableEq, Repr

/-- `ActivePiece` in `tetris.ts`. -/
@[ext] structure ActivePiece where
  type : PieceType
  rotation : Nat
  x : Int
  y : Int
deriving DecidableEq, Repr

/-- A board cell: `PieceType | null`. -/
abbrev BoardCell := Option PieceType

abbrev BoardRow := List BoardCell

/-- The board grid, rows top to bottom. -/
abbrev Board := List BoardRow

def COLS : Nat := 10
def VISIBLE_ROWS : Nat := 20
def TOTAL_ROWS : Nat := 22
def HIDDEN_ROWS : Nat := TOTAL_ROWS - VISIBLE_ROWS
def LOCK_DELAY_MS : ℚ := 500
def SOFT_DROP_INTERVAL : ℚ := 50
def LINE_SCORES : List Nat := [0, 100, 300, 500, 800]

/-- `SPAWN_POSITIONS` in `tetris.ts`: every type spawns at x = 3, the I piece
at y = -2 and all others at y = -1. -/
def spawnPos (t : PieceType) : Int × Int :=
  match t with
  | PieceType.I => (3, -2)
  | _ => (3, -1)

/-- Modelled from the spec: the shape tables (`TETROMINO_SHAPES`) are static
data in the missing `tetromino.ts`.  The spec prescribes a mapping from piece
type to an ordered sequence of 4 rotation-state matrices; these are the
standard 4-state tetromino matrices consistent with the spawn positions of
`tetris.ts`. -/
def TETROMINO_SHAPES (t : PieceType) : List (List (List Bool)) :=
  match t with
  | PieceType.I =>
      [[[false,false,false,false],[true,true,true,true],[false,false,false,false],[false,false,false,false]],
       [[false,false,true,false],[false,false,true,false],[false,false,true,false],[false,false,true,false]],
       [[false,false,false,false],[false,false,false,false],[true,true,true,true],[false,false,false,false]],
       [[false,true,false,false],[false,true,false,false],[false,true,false,false],[false,true,false,false]]]
  | PieceType.O =>
      [[[true,true],[true,true]],
       [[true,true],[true,true]],
       [[true,true],[true,true]],
       [[true,true],[true,true]]]
  | PieceType.T =>
      [[[false,true,false],[true,true,true],[false,false,false]],
       [[false,true,false],[false,true,true],[false,true,false]],
       [[false,false,false],[true,true,true],[false,true,false]],
       [[false,true,false],[true,true,false],[false,true,false]]]
  | PieceType.S =>
      [[[false,true,true],[true,true,false],[false,false,false]],
       [[false,true,false],[false,true,true],[false,false,true]],
       [[false,false,false],[false,true,true],[true,true,false]],
       [[true,false,false],[true,true,false],[false,true,false]]]
  | PieceType.Z =>
      [[[true,true,false],[false,true,true],[false,false,false]],
       [[false,false,true],[false,true,true],[false,true,false]],
       [[false,false,false],[true,true,false],[false,true,true]],
       [[false,true,false],[true,true,false],[true,false,false]]]
  | PieceType.J =>
      [[[true,false,false],[true,true,true],[false,false,false]],
       [[false,true,true],[false,true,false],[false,true,false]],
       [[false,false,false],[true,true,true],[false,false,true]],
       [[false,true,false],[false,true,false],[true,true,false]]]
  | PieceType.L =>
      [[[false,false,true],[true,true,true],[false,false,false]],
       [[false,true,false],[false,true,false],[false,true,true]],
       [[false,false,false],[true,true,true],[true,false,false]],
       [[true,true,false],[false,true,false],[false,true,false]]]

/-- Modelled from the spec: the kick table (`getKickData`) is data in the
missing `tetromino.ts`; the spec only requires an ordered candidate list whose
first entry is the identity offset (0, 0), which is all the engine logic
relies on. -/
def getKickData (_t : PieceType) (_fromRot _toRot : Nat) : List (Int × Int) :=
  [(0, 0)]

/-- `getMatrix` in `tetris.ts`: `states[rotation % states.length]`. -/
def getMatrix (t : PieceType) (rotation : Nat) : List (List Bool) :=
  let states := TETROMINO_SHAPES t
  states.getD (rotation % states.length) []

/-- The full engine state: the private fields of `TetrisGame`, plus the
explicit randomness stream `rng`/`rngIdx` standing for `Math.random`. -/
@[ext] structure State where
  board : Board
  queue : List PieceType
  active : Option ActivePiece
  holdPiece : Option PieceType
  canHold : Bool
  gravityTimer : ℚ
  gravityInterval : ℚ
  lockTimer : ℚ
  grounded : Bool
  softDropActive : Bool
  state : GamePhase
  score : Nat
  level : Nat
  lines : Nat
  combo : Int
  backToBack : Nat
  rng : Nat → Nat
  rngIdx : Nat

/-- `createBoard` in `tetris.ts`. -/
def createBoard : Board := List.replicate TOTAL_ROWS (List.replicate COLS none)

/-- An all-empty row, as inserted at the top by a line clear. -/
def emptyRow : BoardRow := List.replicate COLS none

/-- Whether the board cell at (row, col) is occupied;
`this.board[boardY][boardX]` truthiness. -/
def cellOccupied (board : Board) (r c : Int) : Bool :=
  ((board.getD r.toNat []).getD c.toNat none).isSome

/-- `collides` in `tetris.ts`: scan every occupied cell of the rotation
matrix; collide on an out-of-range column, a row at or below the floor, or an
occupied in-bounds cell (rows above the top are only tested for occupancy when
non-negative). -/
def collides (board : Board) (t : PieceType) (x y : Int) (rotation : Nat) : Bool :=
  let matrix := getMatrix t rotation
  (List.range matrix.length).any fun row =>
    let mrow := matrix.getD row []
    (List.range mrow.length).any fun col =>
      mrow.getD col false &&
        (let boardX : Int := x + col
         let boardY : Int := y + row
         if boardX < 0 ∨ (COLS : Int) ≤ boardX ∨ (TOTAL_ROWS : Int) ≤ boardY then true
         else decide (0 ≤ boardY) && cellOccupied board boardY boardX)

/-- `checkGrounded` in `tetris.ts`: the active piece cannot descend one row. -/
def checkGrounded (st : State) : Bool :=
  match st.active with
  | none => false
  | some p => collides st.board p.type p.x (p.y + 1) p.rotation

/-- `tryMove` in `tetris.ts`: returns whether the move succeeded together with
the updated state (on a blocked downward move the piece becomes grounded; on
success position updates, the lock timer resets and grounded is recomputed). -/
def tryMove (dx dy : Int) (st : State) : Bool × State :=
  match st.active with
  | none => (false, st)
  | some p =>
    let newX := p.x + dx
    let newY := p.y + dy
    if collides st.board p.type newX newY p.rotation then
      (false, if 0 < dy then {st with grounded := true} else st)
    else
      let st1 := {st with active := some {p with x := newX, y := newY}, lockTimer := 0}
      (true, {st1 with grounded := checkGrounded st1})

/-- The counting loop of `getDropDistance`: increment the distance while one
more row down is collision-free.  `fuel` bounds the iterations; it is chosen
by `getDropDistance` so that the loop always stops at the first collision, as
the source loop does. -/
def dropDistanceGo (board : Board) (t : PieceType) (x y : Int) (rotation : Nat) :
    Nat → Nat → Nat
  | 0, d => d
  | fuel + 1, d =>
    if collides board t x (y + d + 1) rotation then d
    else dropDistanceGo board t x y rotation fuel (d + 1)

/-- `getDropDistance` in `tetris.ts`. -/
def getDropDistance (st : State) : Nat :=
  match st.active with
  | none => 0
  | some p =>
    dropDistanceGo st.board p.type p.x p.y p.rotation
      (((TOTAL_ROWS : Int) - p.y).toNat + TOTAL_ROWS + 1) 0

/-- `endGame` in `tetris.ts`. -/
def endGame (st : State) : State :=
  {st with state := GamePhase.over, active := none, softDropActive := false}

/-- Write one cell of the board. -/
def setCell (b : Board) (r c : Nat) (v : BoardCell) : Board :=
  b.set r ((b.getD r []).set c v)

/-- The stamping loop of `lockPiece`: write every occupied matrix cell that is
inside the grid, and flag `toppedOut` for occupied cells above the top. -/
def stampMatrix (m : List (List Bool)) (t : PieceType) (x y : Int) (board : Board) :
    Board × Bool :=
  (List.range m.length).foldl
    (fun acc row =>
      (List.range ((m.getD row []).length)).foldl
        (fun acc2 col =>
          if (m.getD row []).getD col false then
            let boardX : Int := x + col
            let boardY : Int := y + row
            if boardY < 0 then (acc2.1, true)
            else if (TOTAL_ROWS : Int) ≤ boardY ∨ boardX < 0 ∨ (COLS : Int) ≤ boardX then
              acc2
            else (setCell acc2.1 boardY.toNat boardX.toNat (some t), acc2.2)
          else acc2)
        acc)
    (board, false)

/-- `isFullRow`: `row.every((cell) => cell !== null)`. -/
def isFullRow (row : BoardRow) : Bool := row.all (·.isSome)

/-- The scanning loop of `clearLines`: examine index `r`; a full row is
spliced out and an empty row unshifted at the top, re-examining the same index
(`row += 1` before the loop decrement); otherwise move up.  `fuel` bounds the
iterations and is chosen by `clearLines` to cover the worst case. -/
def clearLinesGo : Nat → Board → Nat → Nat → Board × Nat
  | 0, b, _, c => (b, c)
  | fuel + 1, b, r, c =>
    if isFullRow (b.getD r []) then
      clearLinesGo fuel (emptyRow :: b.eraseIdx r) r (c + 1)
    else if r = 0 then (b, c)
    else clearLinesGo fuel b (r - 1) c

/-- `clearLines` in `tetris.ts`: scan rows bottom to top, remove each full row
and insert an empty row at the top, returning the new board and the count. -/
def clearLines (b : Board) : Board × Nat :=
  clearLinesGo (2 * TOTAL_ROWS + 1) b (TOTAL_ROWS - 1) 0

/-- `computeGravityInterval` in `tetris.ts`. -/
def computeGravityInterval (level : Nat) : ℚ :=
  let levelIndex : Nat := level - 1
  let speed : ℚ := max (1/10) (8/10 - (levelIndex : ℚ) * (7/1000))
  max 50 (speed ^ levelIndex * 1000)

/-- `handleLineScoring` in `tetris.ts`: base line score times the pre-update
level, a 1.5x floor for back-to-back tetrises, combo bookkeeping and bonus,
back-to-back bookkeeping, then the level and gravity interval update. -/
def handleLineScoring (linesCleared : Nat) (st : State) : State :=
  let st1 :=
    if 0 < linesCleared then
      let levelMultiplier := st.level
      let baseScore := LINE_SCORES.getD linesCleared 0
      let isTetris := linesCleared = 4
      let lineScore0 := baseScore * levelMultiplier
      let lineScore :=
        if isTetris ∧ 0 < st.backToBack then lineScore0 * 3 / 2 else lineScore0
      let combo1 : Int := if 0 ≤ st.combo then st.combo + 1 else 0
      let score1 := st.score + lineScore
      let score2 :=
        if 0 < combo1 then score1 + 50 * combo1.toNat * levelMultiplier else score1
      {st with lines := st.lines + linesCleared, score := score2, combo := combo1,
               backToBack := if isTetris then st.backToBack + 1 else 0}
    else
      {st with combo := -1,
               backToBack := if 0 < st.backToBack then 0 else st.backToBack}
  let newLevel := st1.lines / 10 + 1
  {st1 with level := newLevel, gravityInterval := computeGravityInterval newLevel}

/-- Swap the entries at indices `i` and `j`
(`[values[i], values[j]] = [values[j], values[i]]`). -/
def listSwap {α : Type} (l : List α) (i j : Nat) : List α :=
  match l.get? i, l.get? j with
  | some a, some b => (l.set i b).set j a
  | _, _ => l

/-- The Fisher-Yates loop of `shuffle` in `tetris.ts`: `v + 1` is the current
loop index `i`; `j = Math.floor(Math.random() * (i + 1))` is modelled as
`rng idx % (i + 1)`, one stream draw per iteration. -/
def shuffleGo {α : Type} (rng : Nat → Nat) : Nat → List α → Nat → List α × Nat
  | 0, vals, idx => (vals, idx)
  | v + 1, vals, idx =>
    let j := rng idx % (v + 2)
    shuffleGo rng v (listSwap vals (v + 1) j) (idx + 1)

/-- `shuffle` in `tetris.ts`, on the explicit randomness stream: returns the
shuffled list and the advanced stream cursor. -/
def shuffle {α : Type} (vals : List α) (rng : Nat → Nat) (idx : Nat) : List α × Nat :=
  shuffleGo rng (vals.length - 1) vals idx

/-- The refilling loop of `refillQueue`: while fewer than 7 pieces remain,
append a freshly shuffled bag of all 7 types.  Each bag has 7 entries, so one
iteration always suffices; the fuel of 7 is never exhausted. -/
def refillGo : Nat → State → State
  | 0, st => st
  | fuel + 1, st =>
    if st.queue.length < 7 then
      let bag := shuffle PIECE_TYPES st.rng st.rngIdx
      refillGo fuel {st with queue := st.queue ++ bag.1, rngIdx := bag.2}
    else st

/-- `refillQueue` in `tetris.ts`. -/
def refillQueue (st : State) : State := refillGo 7 st

/-- `createPiece` in `tetris.ts`: rotation 0 at the type's spawn position. -/
def createPiece (t : PieceType) : ActivePiece :=
  {type := t, rotation := 0, x := (spawnPos t).1, y := (spawnPos t).2}

/-- `spawnNextPiece` in `tetris.ts`: refill, dequeue the front type, place it
at spawn, re-enable hold, reset per-piece flags and timers, and end the game
if the spawn position already collides. -/
def spawnNextPiece (st : State) : State :=
  let st1 := refillQueue st
  match st1.queue with
  | [] => st1
  | t :: rest =>
    let p := createPiece t
    let st2 := {st1 with queue := rest, active := some p, canHold := true}
    let st3 := {st2 with grounded := checkGrounded st2, lockTimer := 0,
                         softDropActive := false, gravityTimer := 0}
    if collides st3.board p.type p.x p.y p.rotation then endGame st3 else st3

/-- `lockPiece` in `tetris.ts`: stamp the piece, end the game when topped out,
otherwise clear lines, score, drop the active piece, reset per-piece state and
spawn the next piece when still playing. -/
def lockPiece (st : State) : State :=
  match st.active with
  | none => st
  | some p =>
    let stamped := stampMatrix (getMatrix p.type p.rotation) p.type p.x p.y st.board
    let st1 := {st with board := stamped.1}
    if stamped.2 then endGame st1
    else
      let cl := clearLines st1.board
      let st2 := handleLineScoring cl.2 {st1 with board := cl.1}
      let st3 := {st2 with active := none, grounded := false, lockTimer := 0,
                           softDropActive := false, gravityTimer := 0}
      if st3.state = GamePhase.playing then spawnNextPiece st3 else st3

/-- The gravity loop of `update`: while the gravity timer is at least the
active interval (and a piece is active), consume the interval and try a one
row descent; a successful soft-drop step scores 1 point; a blocked step
grounds the piece and stops the loop. -/
def updateGo : Nat → ℚ → State → State
  | 0, _, st => st
  | fuel + 1, interval, st =>
    if interval ≤ st.gravityTimer ∧ st.active.isSome then
      let st1 := {st with gravityTimer := st.gravityTimer - interval}
      let r := tryMove 0 1 st1
      if r.1 then
        let st3 := if r.2.softDropActive then {r.2 with score := r.2.score + 1} else r.2
        updateGo fuel interval st3
      else {r.2 with grounded := true}
    else st

/-- Fuel for the gravity loop: strictly more iterations than
`gravityTimer / interval`, so the fueled loop always runs to the loop's own
exit condition when the interval is positive. -/
def updateFuel (timer interval : ℚ) : Nat :=
  if interval ≤ 0 then 0 else (⌈timer / interval⌉).toNat + 1

/-- `update` in `tetris.ts`: no-op unless playing with an active piece;
accumulate the delta, run the gravity loop, and when grounded accumulate the
lock timer and lock at the 500 ms threshold. -/
def update (delta : ℚ) (st : State) : State :=
  if st.state = GamePhase.playing ∧ st.active.isSome then
    let interval := if st.softDropActive then SOFT_DROP_INTERVAL else st.gravityInterval
    let st1 := {st with gravityTimer := st.gravityTimer + delta}
    let st2 := updateGo (updateFuel st1.gravityTimer interval) interval st1
    if st2.grounded ∧ st2.active.isSome then
      let st3 := {st2 with lockTimer := st2.lockTimer + delta}
      if LOCK_DELAY_MS ≤ st3.lockTimer then lockPiece st3 else st3
    else st2
  else st

/-- `move` in `tetris.ts`. -/
def move (direction : Int) (st : State) : State :=
  if st.state = GamePhase.playing then
    let r := tryMove direction 0 st
    if r.1 then {r.2 with grounded := checkGrounded r.2} else r.2
  else st

/-- The kick loop of `rotate`: try each candidate offset in order and accept
the first non-colliding placement. -/
def rotateKicks (st : State) (p : ActivePiece) (toRotation : Nat) :
    List (Int × Int) → State
  | [] => st
  | (offsetX, offsetY) :: rest =>
    let newX := p.x + offsetX
    let newY := p.y + offsetY
    if collides st.board p.type newX newY toRotation then
      rotateKicks st p toRotation rest
    else
      let st1 := {st with active := some {p with rotation := toRotation, x := newX, y := newY}}
      {st1 with grounded := checkGrounded st1, lockTimer := 0}

/-- `rotate` in `tetris.ts`. -/
def rotate (clockwise : Bool) (st : State) : State :=
  match st.state, st.active with
  | GamePhase.playing, some p =>
    let fromRotation := p.rotation % 4
    let toRotation := (fromRotation + (if clockwise then 1 else 3)) % 4
    rotateKicks st p toRotation (getKickData p.type fromRotation toRotation)
  | _, _ => st

/-- `hardDrop` in `tetris.ts`: drop by the computed distance, score 2 points
per row, and lock immediately; a zero distance is a no-op. -/
def hardDrop (st : State) : State :=
  match st.state, st.active with
  | GamePhase.playing, some p =>
    let distance := getDropDistance st
    if distance = 0 then st
    else
      lockPiece {st with active := some {p with y := p.y + (distance : Int)},
                         score := st.score + distance * 2}
  | _, _ => st

/-- `tapSoftDrop` in `tetris.ts`. -/
def tapSoftDrop (st : State) : State :=
  if st.state = GamePhase.playing then
    let r := tryMove 0 1 st
    if r.1 then {r.2 with score := r.2.score + 1} else {r.2 with grounded := true}
  else st

/-- `setSoftDrop` in `tetris.ts`: note there is no phase guard. -/
def setSoftDrop (active : Bool) (st : State) : State :=
  if st.softDropActive = active then st
  else
    let st1 := {st with softDropActive := active}
    if active then {st1 with gravityTimer := 0} else st1

/-- `hold` in `tetris.ts`. -/
def hold (st : State) : State :=
  match st.state, st.active with
  | GamePhase.playing, some p =>
    if st.canHold then
      let st1 := {st with holdPiece := some p.type, canHold := false}
      match st.holdPiece with
      | some swappedType =>
        let np := createPiece swappedType
        let st2 := {st1 with active := some np}
        if collides st2.board np.type np.x np.y np.rotation then endGame st2
        else
          {st2 with grounded := checkGrounded st2, lockTimer := 0,
                    softDropActive := false, gravityTimer := 0}
      | none => spawnNextPiece {st1 with active := none}
    else st
  | _, _ => st

/-- `togglePause` in `tetris.ts`. -/
def togglePause (st : State) : State :=
  match st.state with
  | GamePhase.playing => {st with state := GamePhase.paused, softDropActive := false}
  | GamePhase.paused => {st with state := GamePhase.playing}
  | GamePhase.over => st

/-- The field assignments of `reset` in `tetris.ts`: every field restored to
its initial value.  The randomness stream and its cursor persist. -/
def resetFields (st : State) : State :=
  {st with board := createBoard, queue := [], active := none, holdPiece := none,
           canHold := true, gravityTimer := 0, gravityInterval := 1000,
           lockTimer := 0, grounded := false, softDropActive := false,
           state := GamePhase.playing, score := 0, level := 1, lines := 0,
           combo := -1, backToBack := 0}

/-- `reset` in `tetris.ts` (also the constructor): restore every field to its
initial value, then refill the queue and spawn the first piece. -/
def reset (st : State) : State :=
  spawnNextPiece (refillQueue (resetFields st))

/-- A concrete state with every field at the constructor's pre-reset default
and a constant-zero randomness stream; used to build concrete test states. -/
def baseState : State :=
  {board := createBoard, queue := [], active := none, holdPiece := none,
   canHold := true, gravityTimer := 0, gravityInterval := 1000, lockTimer := 0,
   grounded := false, softDropActive := false, state := GamePhase.playing,
   score := 0, level := 1, lines := 0, combo := -1, backToBack := 0,
   rng := fun _ => 0, rngIdx := 0}

/-- A fully occupied row, for concrete line-clear tests. -/
def fullDemoRow : BoardRow := List.replicate COLS (some PieceType.I)

/-- A board with two non-contiguous full rows (indices 5 and 10). -/
def demoBoardTwoFull : Board := (createBoard.set 5 fullDemoRow).set 10 fullDemoRow

/-- A board with a single occupied cell at row 2, column 3: an overhang with
free space beneath it. -/
def overhangBoard : Board := createBoard.set 2 (emptyRow.set 3 (some PieceType.I))

/-- A playing state with an O piece freshly spawned over the empty board. -/
def stateWithO : State := {baseState with active := some (createPiece PieceType.O)}

/-- A playing state with an O piece above the overhang board. -/
def stateOverhang : State :=
  {baseState with board := overhangBoard, active := some (createPiece PieceType.O)}

/-- A playing state whose O piece already rests on the floor (rows 20-21) with
the gravity timer at 900 ms of a 1000 ms interval. -/
def stateBottomO : State :=
  {baseState with active := some {type := PieceType.O, rotation := 0, x := 3, y := 20},
                  gravityTimer := 900}

/-- A game-over state reached by ending the base game. -/
def stateOver : State := endGame {baseState with gravityTimer := 77}

/-- A playing state with an O piece active, an empty hold slot and a full
7-piece queue: the input of the hold scenario. -/
def stateHold : State :=
  {baseState with active := some (createPiece PieceType.O),
                  queue := [PieceType.T, PieceType.I, PieceType.L, PieceType.J,
                            PieceType.S, PieceType.Z, PieceType.O]}

end Tetris

namespace Tetris

theorem collides_spec (board : Board) (t : PieceType) (x y : Int) (rotation : Nat) :
    collides board t x y rotation = true ↔
      ∃ row, row < (getMatrix t rotation).length ∧
        ∃ col, col < ((getMatrix t rotation).getD row []).length ∧
          ((getMatrix t rotation).getD row []).getD col false = true ∧
          (x + col < 0 ∨ (COLS : Int) ≤ x + col ∨ (TOTAL_ROWS : Int) ≤ y + row ∨
           (0 ≤ y + row ∧ cellOccupied board (y + row) (x + col) = true)) := by
  unfold collides
  simp only [List.any_eq_true, List.mem_range, Bool.and_eq_true]
  constructor
  · rintro ⟨row, hrow, col, hcol, hcell, hcond⟩
    refine ⟨row, hrow, col, hcol, hcell, ?_⟩
    split at hcond
    · rename_i h
      rcases h with h | h | h
      · exact Or.inl h
      · exact Or.inr (Or.inl h)
      · exact Or.inr (Or.inr (Or.inl h))
    · rename_i h
      push_neg at h
      simp only [Bool.and_eq_true, decide_eq_true_eq] at hcond
      exact Or.inr (Or.inr (Or.inr hcond))
  · rintro ⟨row, hrow, col, hcol, hcell, hcond⟩
    refine ⟨row, hrow, col, hcol, hcell, ?_⟩
    split
    · rfl
    · rename_i h
      push_neg at h
      obtain ⟨h1, h2, h3⟩ := h
      simp only [Bool.and_eq_true, decide_eq_true_eq]
      rcases hcond with hc | hc | hc | hc
      · omega
      · omega
      · omega
      · exact hc

end Tetris

namespace Tetris

/-- C1: `collides(type, x, y, rotation)` is true exactly when some occupied
cell of the rotation matrix maps to a column outside [0, COLS), a row at or
past TOTAL_ROWS, or a non-negative row whose board cell is occupied; occupied
cells at negative rows with in-range columns contribute nothing. -/
theorem claim_C1_collides_characterization (board : Board) (t : PieceType)
    (x y : Int) (rotation : Nat) :
    collides board t x y rotation = true ↔
      ∃ row, row < (getMatrix t rotation).length ∧
        ∃ col, col < ((getMatrix t rotation).getD row []).length ∧
          ((getMatrix t rotation).getD row []).getD col false = true ∧
          (x + col < 0 ∨ (COLS : Int) ≤ x + col ∨ (TOTAL_ROWS : Int) ≤ y + row ∨
           (0 ≤ y + row ∧ cellOccupied board (y + row) (x + col) = true)) :=
  collides_spec board t x y rotation

/-- Replacing the entry at index `k` (which holds `b`) by `a` and moving `b`
to the front permutes consing `a` at the front. -/
theorem cons_set_perm {α : Type} (a b : α) :
    ∀ (l : List α) (k : Nat), l.get? k = some b → (b :: l.set k a).Perm (a :: l) := by
  intro l
  induction l with
  | nil => intro k h; simp at h
  | cons c tl ih =>
    intro k h
    cases k with
    | zero =>
      simp only [List.get?] at h
      cases h
      simpa using List.Perm.swap a b tl
    | succ k =>
      simp only [List.get?] at h
      have step := ih k h
      have h1 : b :: (c :: tl).set (k + 1) a = b :: c :: tl.set k a := by simp
      rw [h1]
      refine List.Perm.trans ?_ (List.Perm.swap a c tl)
      exact List.Perm.trans (List.Perm.swap c b (tl.set k a)) (step.cons c)

end Tetris

namespace Tetris

/-- Setting index `i` to `b` and index `j` to `a`, where those indices held
`a` and `b`, permutes the list. -/
theorem set_set_perm {α : Type} :
    ∀ (l : List α) (i j : Nat) (a b : α), l.get? i = some a → l.get? j = some b →
      ((l.set i b).set j a).Perm l := by
  intro l
  induction l with
  | nil => intro i j a b hi _; simp at hi
  | cons c tl ih =>
    intro i j a b hi hj
    cases i with
    | zero =>
      simp only [List.get?, Option.some.injEq] at hi
      subst hi
      cases j with
      | zero =>
        simp only [List.get?, Option.some.injEq] at hj
        subst hj
        simp
      | succ k =>
        simp only [List.get?] at hj
        simpa using cons_set_perm c b tl k hj
    | succ m =>
      simp only [List.get?] at hi
      cases j with
      | zero =>
        simp only [List.get?, Option.some.injEq] at hj
        subst hj
        simpa using cons_set_perm c a tl m hi
      | succ k =>
        simp only [List.get?] at hj
        simpa using (ih m k a b hi hj).cons c

/-- `listSwap` permutes its input. -/
theorem listSwap_perm {α : Type} (l : List α) (i j : Nat) : (listSwap l i j).Perm l := by
  unfold listSwap
  cases hi : l.get? i with
  | none => exact List.Perm.refl l
  | some a =>
    cases hj : l.get? j with
    | none => exact List.Perm.refl l
    | some b => exact set_set_perm l i j a b hi hj

/-- The Fisher-Yates loop permutes its input, for every randomness stream. -/
theorem shuffleGo_perm {α : Type} (rng : Nat → Nat) :
    ∀ (v : Nat) (vals : List α) (idx : Nat), (shuffleGo rng v vals idx).1.Perm vals := by
  intro v
  induction v with
  | zero => intro vals idx; exact List.Perm.refl vals
  | succ w ih =>
    intro vals idx
    exact (ih _ _).trans (listSwap_perm vals (w + 1) (rng idx % (w + 2)))

/-- `shuffle` returns a permutation of its input, for every randomness
stream. -/
theorem shuffle_perm {α : Type} (vals : List α) (rng : Nat → Nat) (idx : Nat) :
    (shuffle vals rng idx).1.Perm vals :=
  shuffleGo_perm rng (vals.length - 1) vals idx

/-- `shuffle` preserves length. -/
theorem shuffle_length {α : Type} (vals : List α) (rng : Nat → Nat) (idx : Nat) :
    (shuffle vals rng idx).1.length = vals.length :=
  (shuffle_perm vals rng idx).length_eq

end Tetris

namespace Tetris

/-- Each piece type occurs exactly once in `PIECE_TYPES`. -/
theorem count_PIECE_TYPES (t : PieceType) : PIECE_TYPES.count t = 1 := by
  cases t <;> rfl

/-- The refill loop is a no-op once 7 pieces remain. -/
theorem refillGo_stop : ∀ (fuel : Nat) (st : State), 7 ≤ st.queue.length →
    refillGo fuel st = st := by
  intro fuel
  cases fuel with
  | zero => intro st _; rfl
  | succ f =>
    intro st h
    unfold refillGo
    rw [if_neg (by omega)]

/-- `refillQueue` appends exactly one shuffled bag when fewer than 7 pieces
remain, and otherwise does nothing. -/
theorem refillQueue_eq (st : State) :
    refillQueue st =
      if st.queue.length < 7 then
        {st with queue := st.queue ++ (shuffle PIECE_TYPES st.rng st.rngIdx).1,
                 rngIdx := (shuffle PIECE_TYPES st.rng st.rngIdx).2}
      else st := by
  unfold refillQueue
  split
  · rename_i h
    show refillGo 7 st = _
    unfold refillGo
    rw [if_pos h]
    apply refillGo_stop
    have hlen : (shuffle PIECE_TYPES st.rng st.rngIdx).1.length = 7 :=
      shuffle_length PIECE_TYPES st.rng st.rngIdx
    simp [hlen]
  · rename_i h
    exact refillGo_stop 7 st (by omega)

/-- After `refillQueue` at least 7 pieces are queued. -/
theorem refillQueue_length (st : State) : 7 ≤ (refillQueue st).queue.length := by
  rw [refillQueue_eq]
  split
  · have hlen : (shuffle PIECE_TYPES st.rng st.rngIdx).1.length = 7 :=
      shuffle_length PIECE_TYPES st.rng st.rngIdx
    simp [hlen]
  · omega

end Tetris

namespace Tetris

/-- C9: for every outcome of the random stream, `shuffle` returns a
rearrangement of its input (a permutation), and `refillQueue` appends whole
shuffled bags — each a permutation of the 7 piece types, containing every type
exactly once — and appends only while fewer than 7 pieces remain, so each
appended 7-piece bag (the groups aligned to refill boundaries) holds each of
the 7 types exactly once. -/
theorem claim_C9_bag_invariant :
    (∀ (vals : List PieceType) (rng : Nat → Nat) (idx : Nat),
        (shuffle vals rng idx).1.Perm vals) ∧
    (∀ st : State, ∃ (bags : List (List PieceType)) (idx : Nat),
        refillQueue st = {st with queue := st.queue ++ bags.flatten, rngIdx := idx} ∧
        (∀ bag ∈ bags, bag.Perm PIECE_TYPES ∧ ∀ t : PieceType, bag.count t = 1) ∧
        (7 ≤ st.queue.length → bags = []) ∧
        (st.queue.length < 7 → bags.length = 1)) := by
  constructor
  · exact fun vals rng idx => shuffle_perm vals rng idx
  · intro st
    by_cases h : st.queue.length < 7
    · refine ⟨[(shuffle PIECE_TYPES st.rng st.rngIdx).1],
        (shuffle PIECE_TYPES st.rng st.rngIdx).2, ?_, ?_, ?_, ?_⟩
      · rw [refillQueue_eq, if_pos h]
        simp
      · intro bag hbag
        simp only [List.mem_singleton] at hbag
        subst hbag
        refine ⟨shuffle_perm PIECE_TYPES st.rng st.rngIdx, fun t => ?_⟩
        rw [(shuffle_perm PIECE_TYPES st.rng st.rngIdx).count_eq]
        exact count_PIECE_TYPES t
      · intro hge; omega
      · intro _; rfl
    · refine ⟨[], st.rngIdx, ?_, ?_, ?_, ?_⟩
      · rw [refillQueue_eq, if_neg h]
        simp
      · intro bag hbag; simp at hbag
      · intro _; rfl
      · intro hlt; omega

end Tetris

namespace Tetris

/-- The freshly inserted empty row is never full. -/
theorem isFullRow_emptyRow : isFullRow emptyRow = false := by decide

/-- The scanning loop of `clearLines`, run from index `r` with enough fuel,
removes exactly the full rows among the first `r + 1`, prepends that many
empty rows, and adds their number to the count. -/
theorem clearLinesGo_spec :
    ∀ (fuel : Nat) (b : Board) (r c : Nat), r < b.length →
      ((b.take (r + 1)).filter isFullRow).length + (r + 1) ≤ fuel →
      clearLinesGo fuel b r c =
        (List.replicate ((b.take (r + 1)).filter isFullRow).length emptyRow
           ++ (b.take (r + 1)).filter (fun row => !(isFullRow row)) ++ b.drop (r + 1),
         c + ((b.take (r + 1)).filter isFullRow).length) := by
  intro fuel
  induction fuel with
  | zero => intro b r c _ hfuel; omega
  | succ f ih =>
    intro b r c hr hfuel
    have hbr : b.getD r [] = b[r] := by
      rw [List.getD_eq_getElem?_getD, List.getElem?_eq_getElem hr]
      rfl
    have htake : b.take (r + 1) = b.take r ++ [b[r]] := by
      rw [List.take_succ, List.getElem?_eq_getElem hr]
      rfl
    have htakelen : (b.take r).length = r := by
      simp [List.length_take]
      omega
    unfold clearLinesGo
    by_cases hfull : isFullRow (b.getD r []) = true
    · rw [if_pos hfull]
      rw [hbr] at hfull
      have herase : b.eraseIdx r = b.take r ++ b.drop (r + 1) :=
        List.eraseIdx_eq_take_drop_succ b r
      have hlen' : (emptyRow :: b.eraseIdx r).length = b.length := by
        simp [herase, List.length_take, List.length_drop]
        omega
      have htake' : (emptyRow :: b.eraseIdx r).take (r + 1) = emptyRow :: b.take r := by
        rw [List.take_succ_cons, herase, List.take_append_eq_append_take, htakelen]
        simp [List.take_take]
      have hdrop' : (emptyRow :: b.eraseIdx r).drop (r + 1) = b.drop (r + 1) := by
        rw [List.drop_succ_cons, herase, List.drop_append_eq_append_drop, htakelen]
        simp
      have hKsplit :
          ((b.take (r + 1)).filter isFullRow).length
            = ((b.take r).filter isFullRow).length + 1 := by
        rw [htake, List.filter_append]
        simp [hfull]
      have hstep := ih (emptyRow :: b.eraseIdx r) r (c + 1)
        (by omega)
        (by
          rw [htake', List.filter_cons_of_neg (by simp [isFullRow_emptyRow])]
          omega)
      rw [hstep, htake', hdrop', htake]
      rw [List.filter_cons_of_neg (by simp [isFullRow_emptyRow]),
          List.filter_cons_of_pos (by simp [isFullRow_emptyRow]),
          List.filter_append, List.filter_append,
          List.filter_cons_of_pos (by simp [hfull]),
          List.filter_cons_of_neg (by simp [hfull]),
          List.filter_nil, List.filter_nil, List.append_nil]
      simp only [List.length_append, List.length_cons, List.length_nil, Prod.mk.injEq]
      constructor
      · rw [List.replicate_succ' ]
        simp [List.append_assoc]
      · omega
    · rw [if_neg hfull]
      rw [hbr] at hfull
      have hnf : isFullRow b[r] = false := by
        revert hfull
        cases isFullRow b[r] <;> simp
      have hKeq : ((b.take (r + 1)).filter isFullRow).length
            = ((b.take r).filter isFullRow).length := by
        rw [htake, List.filter_append]
        simp [hnf]
      by_cases hr0 : r = 0
      · subst hr0
        rw [if_pos rfl]
        have h1 : b.take 1 = [b[0]] := by
          rw [htake]
          simp
        rw [h1]
        have hb0 : b = b[0] :: b.drop 1 := by
          have h2 := @List.drop_eq_getElem_cons _ 0 b (by omega)
          simpa using h2
        rw [List.filter_cons_of_neg (by simp [hnf]),
            List.filter_cons_of_pos (by simp [hnf]),
            List.filter_nil, List.filter_nil]
        simp only [List.length_nil, List.replicate_zero, List.nil_append, Prod.mk.injEq]
        constructor
        · conv_lhs => rw [hb0]
          simp
        · omega
      · rw [if_neg hr0]
        obtain ⟨s, rfl⟩ : ∃ s, r = s + 1 := ⟨r - 1, by omega⟩
        have hstep := ih b s c (by omega) (by omega)
        simp only [Nat.add_sub_cancel]
        rw [hstep]
        have hdropstep : b.drop (s + 1) = b[s + 1] :: b.drop (s + 2) :=
          List.drop_eq_getElem_cons hr
        simp only [Prod.mk.injEq]
        constructor
        · rw [hKeq, htake, List.filter_append, hdropstep,
              List.filter_cons_of_pos (by simp [hnf]), List.filter_nil]
          simp [List.append_assoc]
        · rw [hKeq]

end Tetris

namespace Tetris

/-- `clearLines` on a full-height board: the pair of the cleared board and the
number of full rows. -/
theorem clearLines_spec (b : Board) (h : b.length = TOTAL_ROWS) :
    clearLines b =
      (List.replicate ((b.filter isFullRow).length) emptyRow
         ++ b.filter (fun row => !(isFullRow row)),
       (b.filter isFullRow).length) := by
  have h21 : TOTAL_ROWS - 1 < b.length := by rw [h]; decide
  have htake : b.take (TOTAL_ROWS - 1 + 1) = b := by
    apply List.take_of_length_le
    omega
  have hdrop : b.drop (TOTAL_ROWS - 1 + 1) = [] := by
    apply List.drop_eq_nil_of_le
    omega
  have hfuel : ((b.take (TOTAL_ROWS - 1 + 1)).filter isFullRow).length
      + (TOTAL_ROWS - 1 + 1) ≤ 2 * TOTAL_ROWS + 1 := by
    rw [htake]
    have := List.length_filter_le isFullRow b
    simp only [TOTAL_ROWS] at h ⊢
    omega
  unfold clearLines
  rw [clearLinesGo_spec (2 * TOTAL_ROWS + 1) b (TOTAL_ROWS - 1) 0 h21 hfuel,
      htake, hdrop]
  simp

/-- C5: `clearLines` removes exactly the rows with no empty cell, inserts one
empty row at the top per removed row (non-full rows keep their relative order
and shift down), and returns the number removed; several non-contiguous full
rows are all removed in one call, and with zero full rows it returns 0 and
leaves the grid unchanged. -/
theorem claim_C5_clearLines (b : Board) (h : b.length = TOTAL_ROWS) :
    (clearLines b).2 = (b.filter isFullRow).length ∧
    (clearLines b).1 =
      List.replicate ((b.filter isFullRow).length) emptyRow
        ++ b.filter (fun row => !(isFullRow row)) ∧
    ((b.filter isFullRow).length = 0 → clearLines b = (b, 0)) := by
  rw [clearLines_spec b h]
  refine ⟨rfl, rfl, ?_⟩
  intro h0
  have hnil : b.filter isFullRow = [] := List.length_eq_zero.mp h0
  have hall : ∀ row ∈ b, ¬(isFullRow row = true) := List.filter_eq_nil_iff.mp hnil
  have hself : b.filter (fun row => !(isFullRow row)) = b := by
    apply List.filter_eq_self.mpr
    intro row hrow
    simp [hall row hrow]
  rw [h0, hself]
  simp

/-- C5 at a concrete input: the board with non-contiguous full rows 5 and 10
has both removed and counted in one call. -/
theorem claim_C5_clearLines_witness :
    (clearLines demoBoardTwoFull).2 = (demoBoardTwoFull.filter isFullRow).length ∧
    (clearLines demoBoardTwoFull).1 =
      List.replicate ((demoBoardTwoFull.filter isFullRow).length) emptyRow
        ++ demoBoardTwoFull.filter (fun row => !(isFullRow row)) ∧
    ((demoBoardTwoFull.filter isFullRow).length = 0 →
      clearLines demoBoardTwoFull = (demoBoardTwoFull, 0)) :=
  claim_C5_clearLines demoBoardTwoFull (by decide)

end Tetris

namespace Tetris

/-- C6: for a clear of n ∈ [1,4] lines, `handleLineScoring` adds
base(n) × level (level before the update) to the score — with a floored 1.5×
on a tetris when the back-to-back counter was positive — moves the combo
counter from −1 to 0 on a first clear and otherwise up by 1, adds the
50 × combo × level bonus when the combo is positive, and increments
back-to-back exactly on 4-line clears, resetting it to 0 on smaller ones;
in particular two consecutive tetrises from the initial counters give the
second the 1.5× base score and leave backToBack = 2. -/
theorem claim_C6_scoring (st : State) (n : Nat) (h1 : 1 ≤ n) (h4 : n ≤ 4)
    (hc : -1 ≤ st.combo) :
    ((handleLineScoring n st).combo
        = (if st.combo = -1 then 0 else st.combo + 1) ∧
     (handleLineScoring n st).backToBack
        = (if n = 4 then st.backToBack + 1 else 0) ∧
     (handleLineScoring n st).lines = st.lines + n ∧
     (handleLineScoring n st).score
        = st.score
          + (if n = 4 ∧ 0 < st.backToBack
             then LINE_SCORES.getD n 0 * st.level * 3 / 2
             else LINE_SCORES.getD n 0 * st.level)
          + (if st.combo = -1 then 0
             else 50 * (st.combo + 1).toNat * st.level)) ∧
    (handleLineScoring 4 (handleLineScoring 4 baseState)).score
        = (handleLineScoring 4 baseState).score + 800 * 1 * 3 / 2 + 50 ∧
    (handleLineScoring 4 (handleLineScoring 4 baseState)).backToBack = 2 := by
  refine ⟨?_, by decide, by decide⟩
  have h0 : 0 < n := h1
  by_cases hcm : st.combo = -1
  · have hnot : ¬(0 ≤ st.combo) := by omega
    by_cases hbt : n = 4 ∧ 0 < st.backToBack
    · simp [handleLineScoring, h0, hcm, hnot, hbt]
    · simp [handleLineScoring, h0, hcm, hnot, hbt]
  · have hge : 0 ≤ st.combo := by omega
    have hpos : (0:Int) < st.combo + 1 := by omega
    have hpos' : ¬(st.combo + 1 = 0) := by omega
    by_cases hbt : n = 4 ∧ 0 < st.backToBack
    · simp [handleLineScoring, h0, hcm, hge, hpos, hbt]
    · simp [handleLineScoring, h0, hcm, hge, hpos, hbt]

end Tetris

namespace Tetris

/-- C6 at a concrete input: a single-line clear from the freshly constructed
counters. -/
theorem claim_C6_scoring_witness :
    ((handleLineScoring 1 baseState).combo
        = (if baseState.combo = -1 then 0 else baseState.combo + 1) ∧
     (handleLineScoring 1 baseState).backToBack
        = (if (1:Nat) = 4 then baseState.backToBack + 1 else 0) ∧
     (handleLineScoring 1 baseState).lines = baseState.lines + 1 ∧
     (handleLineScoring 1 baseState).score
        = baseState.score
          + (if (1:Nat) = 4 ∧ 0 < baseState.backToBack
             then LINE_SCORES.getD 1 0 * baseState.level * 3 / 2
             else LINE_SCORES.getD 1 0 * baseState.level)
          + (if baseState.combo = -1 then 0
             else 50 * (baseState.combo + 1).toNat * baseState.level)) ∧
    (handleLineScoring 4 (handleLineScoring 4 baseState)).score
        = (handleLineScoring 4 baseState).score + 800 * 1 * 3 / 2 + 50 ∧
    (handleLineScoring 4 (handleLineScoring 4 baseState)).backToBack = 2 :=
  claim_C6_scoring baseState 1 (by decide) (by decide) (by decide)

end Tetris

namespace Tetris

/-- C3 counterexample: in the 'over' phase, `setSoftDrop(true)` is not a
no-op — it raises the soft-drop flag and zeroes the gravity timer (the claim
states every command except reset is a complete no-op). -/
theorem claim_C3_counterexample_setSoftDrop :
    stateOver.state = GamePhase.over ∧
    stateOver.softDropActive = false ∧
    (setSoftDrop true stateOver).softDropActive = true ∧
    stateOver.gravityTimer = 77 ∧
    (setSoftDrop true stateOver).gravityTimer = 0 := by
  refine ⟨rfl, rfl, rfl, rfl, rfl⟩

/-- C3 (amended): in the 'over' phase every command except `reset` and
`setSoftDrop` leaves the state unchanged; `setSoftDrop` changes at most the
soft-drop flag and the gravity timer, and no command other than `reset`
leaves the 'over' phase. -/
theorem claim_C3_over_terminal (st : State) (h : st.state = GamePhase.over) :
    (∀ d : ℚ, update d st = st) ∧
    (∀ dir : Int, move dir st = st) ∧
    (∀ cw : Bool, rotate cw st = st) ∧
    hardDrop st = st ∧
    tapSoftDrop st = st ∧
    hold st = st ∧
    togglePause st = st ∧
    (∀ b : Bool, (setSoftDrop b st).state = GamePhase.over ∧
       ∃ (sd : Bool) (g : ℚ),
         setSoftDrop b st = {st with softDropActive := sd, gravityTimer := g}) := by
  refine ⟨?_, ?_, ?_, ?_, ?_, ?_, ?_, ?_⟩
  · intro d; simp [update, h]
  · intro dir; simp [move, h]
  · intro cw
    cases ha : st.active <;> simp [rotate, h, ha]
  · cases ha : st.active <;> simp [hardDrop, h, ha]
  · simp [tapSoftDrop, h]
  · cases ha : st.active <;> simp [hold, h, ha]
  · simp [togglePause, h]
  · intro b
    constructor
    · by_cases hsd : st.softDropActive = b
      · rw [setSoftDrop, if_pos hsd]
        exact h
      · rw [setSoftDrop, if_neg hsd]
        cases b <;> simpa using h
    · by_cases hsd : st.softDropActive = b
      · refine ⟨st.softDropActive, st.gravityTimer, ?_⟩
        rw [setSoftDrop, if_pos hsd]
      · cases b
        · refine ⟨false, st.gravityTimer, ?_⟩
          rw [setSoftDrop, if_neg hsd]
          simp
        · refine ⟨true, 0, ?_⟩
          rw [setSoftDrop, if_neg hsd]
          simp

/-- C3 at a concrete input: the amended statement applied to a concrete
game-over state. -/
theorem claim_C3_over_terminal_witness :
    (∀ d : ℚ, update d stateOver = stateOver) ∧
    (∀ dir : Int, move dir stateOver = stateOver) ∧
    (∀ cw : Bool, rotate cw stateOver = stateOver) ∧
    hardDrop stateOver = stateOver ∧
    tapSoftDrop stateOver = stateOver ∧
    hold stateOver = stateOver ∧
    togglePause stateOver = stateOver ∧
    (∀ b : Bool, (setSoftDrop b stateOver).state = GamePhase.over ∧
       ∃ (sd : Bool) (g : ℚ),
         setSoftDrop b stateOver = {stateOver with softDropActive := sd, gravityTimer := g}) :=
  claim_C3_over_terminal stateOver rfl

end Tetris

namespace Tetris

/-- C2: the code contradicts the claim.  From a playing state with an active
O piece, an empty hold slot and hold enabled, `hold()` stores O and spawns T
from the queue — but the spawn path re-enables holding (`canHold` is true
again), so an immediate second `hold()` is not a no-op: it swaps the active T
for the held O. -/
theorem claim_C2_hold_codebug :
    stateHold.holdPiece = none ∧
    stateHold.canHold = true ∧
    (hold stateHold).holdPiece = some PieceType.O ∧
    (hold stateHold).active = some (createPiece PieceType.T) ∧
    (hold stateHold).canHold = true ∧
    (hold stateHold).state = GamePhase.playing ∧
    (hold (hold stateHold)).active = some (createPiece PieceType.O) ∧
    (hold (hold stateHold)).holdPiece = some PieceType.T := by
  refine ⟨rfl, rfl, ?_, ?_, ?_, ?_, ?_, ?_⟩ <;> decide

/-- `refillGo` changes only the queue and the stream cursor. -/
theorem refillGo_fields :
    ∀ (fuel : Nat) (st : State), ∃ (q : List PieceType) (i : Nat),
      refillGo fuel st = {st with queue := q, rngIdx := i} := by
  intro fuel
  induction fuel with
  | zero =>
    intro st
    exact ⟨st.queue, st.rngIdx, rfl⟩
  | succ f ih =>
    intro st
    unfold refillGo
    by_cases h : st.queue.length < 7
    · rw [if_pos h]
      obtain ⟨q, i, hq⟩ := ih
        {st with queue := st.queue ++ (shuffle PIECE_TYPES st.rng st.rngIdx).1,
                 rngIdx := (shuffle PIECE_TYPES st.rng st.rngIdx).2}
      exact ⟨q, i, hq⟩
    · rw [if_neg h]
      exact ⟨st.queue, st.rngIdx, rfl⟩

/-- `spawnNextPiece` either spawns a piece (leaving the phase, board and
scoreboard untouched) or ends the game on a blocked spawn; only the queue,
stream cursor, active piece, hold permission, per-piece flags and timers are
touched. -/
theorem spawnNextPiece_cases (st : State) :
    ∃ (p : ActivePiece) (q : List PieceType) (i : Nat) (g : Bool),
      spawnNextPiece st =
          endGame {st with queue := q, rngIdx := i, active := some p, canHold := true,
                           grounded := g, lockTimer := 0, softDropActive := false,
                           gravityTimer := 0} ∨
      spawnNextPiece st =
          {st with queue := q, rngIdx := i, active := some p, canHold := true,
                   grounded := g, lockTimer := 0, softDropActive := false,
                   gravityTimer := 0} := by
  unfold spawnNextPiece
  have hlen := refillQueue_length st
  obtain ⟨q0, i0, hq0⟩ := refillGo_fields 7 st
  have hq0' : refillQueue st = {st with queue := q0, rngIdx := i0} := hq0
  rw [hq0']
  rw [hq0'] at hlen
  cases hq : q0 with
  | nil =>
    simp [hq] at hlen
  | cons t rest =>
    simp only
    by_cases hc :
        collides st.board (createPiece t).type (createPiece t).x (createPiece t).y
          (createPiece t).rotation = true
    · refine ⟨createPiece t, rest, i0,
        checkGrounded {st with queue := rest, rngIdx := i0,
                               active := some (createPiece t), canHold := true}, ?_⟩
      left
      rw [if_pos hc]
    · refine ⟨createPiece t, rest, i0,
        checkGrounded {st with queue := rest, rngIdx := i0,
                               active := some (createPiece t), canHold := true}, ?_⟩
      right
      rw [if_neg hc]

end Tetris

namespace Tetris

/-- `tryMove` never changes the score. -/
theorem tryMove_score (dx dy : Int) (st : State) : (tryMove dx dy st).2.score = st.score := by
  unfold tryMove
  cases st.active with
  | none => rfl
  | some p =>
    dsimp only
    by_cases hc : collides st.board p.type (p.x + dx) (p.y + dy) p.rotation = true
    · rw [if_pos hc]
      split <;> rfl
    · rw [if_neg hc]

/-- `handleLineScoring` never decreases the score. -/
theorem handleLineScoring_score_le (n : Nat) (st : State) :
    st.score ≤ (handleLineScoring n st).score := by
  unfold handleLineScoring
  by_cases h : 0 < n
  · rw [if_pos h]
    dsimp only
    split_ifs <;> omega
  · rw [if_neg h]

/-- `refillQueue` preserves the score. -/
theorem refillQueue_score (st : State) : (refillQueue st).score = st.score := by
  obtain ⟨q, i, hq⟩ := refillGo_fields 7 st
  show (refillGo 7 st).score = st.score
  rw [hq]

/-- `spawnNextPiece` preserves the score. -/
theorem spawnNextPiece_score (st : State) : (spawnNextPiece st).score = st.score := by
  obtain ⟨p, q, i, g, hcase | hcase⟩ := spawnNextPiece_cases st <;> rw [hcase] <;> rfl

/-- `handleLineScoring` never decreases the score, stated against a named
starting score. -/
theorem handleLineScoring_score_le' (n : Nat) (st0 : State) (k : Nat)
    (hk : st0.score = k) : k ≤ (handleLineScoring n st0).score :=
  hk ▸ handleLineScoring_score_le n st0

/-- `lockPiece` never decreases the score. -/
theorem lockPiece_score_le (st : State) : st.score ≤ (lockPiece st).score := by
  unfold lockPiece
  cases st.active with
  | none => exact le_refl _
  | some p =>
    dsimp only
    split
    · exact le_refl _
    · split
      · rw [spawnNextPiece_score]
        exact handleLineScoring_score_le' _ _ _ rfl
      · exact handleLineScoring_score_le' _ _ _ rfl

end Tetris

namespace Tetris

/-- `lockPiece` never decreases a lower bound on the score. -/
theorem lockPiece_score_le' (st0 : State) (k : Nat) (hk : k ≤ st0.score) :
    k ≤ (lockPiece st0).score :=
  le_trans hk (lockPiece_score_le st0)

/-- The gravity loop never decreases the score. -/
theorem updateGo_score_le (interval : ℚ) :
    ∀ (fuel : Nat) (st : State), st.score ≤ (updateGo fuel interval st).score := by
  intro fuel
  induction fuel with
  | zero => intro st; exact le_refl _
  | succ f ih =>
    intro st
    unfold updateGo
    dsimp only
    split
    · have htm := tryMove_score 0 1 {st with gravityTimer := st.gravityTimer - interval}
      dsimp only at htm
      split
      · refine le_trans ?_ (ih _)
        split
        · dsimp only
          rw [htm]
          omega
        · rw [htm]
      · dsimp only
        rw [htm]
    · exact le_refl _

/-- The gravity loop never decreases a lower bound on the score. -/
theorem updateGo_score_le' (fuel : Nat) (interval : ℚ) (st0 : State) (k : Nat)
    (hk : k ≤ st0.score) : k ≤ (updateGo fuel interval st0).score :=
  le_trans hk (updateGo_score_le interval fuel st0)

/-- The lock-delay phase of `update` never decreases a lower bound on the
score. -/
theorem lockPhase_score_le (delta : ℚ) (st2 : State) (k : Nat) (hk : k ≤ st2.score) :
    k ≤ (if st2.grounded ∧ st2.active.isSome then
          let st3 := {st2 with lockTimer := st2.lockTimer + delta}
          if LOCK_DELAY_MS ≤ st3.lockTimer then lockPiece st3 else st3
        else st2).score := by
  split
  · dsimp only
    split
    · exact lockPiece_score_le' _ _ hk
    · exact hk
  · exact hk

/-- `update` never decreases the score. -/
theorem update_score_le (delta : ℚ) (st : State) : st.score ≤ (update delta st).score := by
  unfold update
  by_cases hg : st.state = GamePhase.playing ∧ st.active.isSome = true
  · rw [if_pos hg]
    dsimp only
    exact lockPhase_score_le delta _ st.score (updateGo_score_le' _ _ _ _ (le_of_eq rfl))
  · rw [if_neg hg]

/-- `move` preserves the score. -/
theorem move_score (direction : Int) (st : State) : (move direction st).score = st.score := by
  unfold move
  split
  · dsimp only
    split
    · dsimp only
      exact tryMove_score direction 0 st
    · exact tryMove_score direction 0 st
  · rfl

/-- The kick loop preserves the score. -/
theorem rotateKicks_score (st : State) (p : ActivePiece) (toRotation : Nat) :
    ∀ kicks : List (Int × Int), (rotateKicks st p toRotation kicks).score = st.score := by
  intro kicks
  induction kicks with
  | nil => rfl
  | cons k rest ih =>
    unfold rotateKicks
    obtain ⟨ox, oy⟩ := k
    dsimp only
    split
    · exact ih
    · rfl

/-- `rotate` preserves the score. -/
theorem rotate_score (clockwise : Bool) (st : State) : (rotate clockwise st).score = st.score := by
  unfold rotate
  cases hs : st.state <;> cases ha : st.active <;> simp [rotateKicks_score]

/-- `tapSoftDrop` never decreases the score. -/
theorem tapSoftDrop_score_le (st : State) : st.score ≤ (tapSoftDrop st).score := by
  unfold tapSoftDrop
  split
  · have htm := tryMove_score 0 1 st
    dsimp only
    split
    · dsimp only
      rw [htm]
      omega
    · dsimp only
      rw [htm]
  · exact le_refl _

/-- `setSoftDrop` preserves the score. -/
theorem setSoftDrop_score (active : Bool) (st : State) :
    (setSoftDrop active st).score = st.score := by
  unfold setSoftDrop
  split
  · rfl
  · dsimp only
    split <;> rfl

/-- `togglePause` preserves the score. -/
theorem togglePause_score (st : State) : (togglePause st).score = st.score := by
  unfold togglePause
  cases st.state <;> rfl

/-- `hold` preserves the score. -/
theorem hold_score (st : State) : (hold st).score = st.score := by
  unfold hold
  cases hs : st.state <;> cases ha : st.active <;> try rfl
  case playing.some p =>
    dsimp only
    split
    · cases hh : st.holdPiece with
      | some swapped =>
        dsimp only
        split
        · rfl
        · rfl
      | none =>
        dsimp only
        rw [spawnNextPiece_score]
    · rfl

/-- `hardDrop` never decreases the score. -/
theorem hardDrop_score_le (st : State) : st.score ≤ (hardDrop st).score := by
  unfold hardDrop
  cases hs : st.state <;> cases ha : st.active <;> try exact le_refl _
  case playing.some p =>
    dsimp only
    split
    · exact le_refl _
    · apply lockPiece_score_le'
      dsimp only
      omega

end Tetris

namespace Tetris

/-- C7 counterexample: `reset` resets the score to 0, so from any state with
a positive score the command `reset` strictly decreases it. -/
theorem claim_C7_counterexample_reset :
    ({baseState with score := 1} : State).score = 1 ∧
    (reset {baseState with score := 1}).score = 0 := by
  exact ⟨rfl, by decide⟩

/-- C7 (amended): no command other than `reset` ever decreases the score —
`update`, `move`, `rotate`, `hardDrop`, `tapSoftDrop`, `setSoftDrop`, `hold`
and `togglePause` all leave the score greater than or equal to its previous
value (`reset` returns the score to 0 and is excluded). -/
theorem claim_C7_score_monotone (st : State) (delta : ℚ) (direction : Int)
    (clockwise : Bool) (active : Bool) :
    st.score ≤ (update delta st).score ∧
    st.score ≤ (move direction st).score ∧
    st.score ≤ (rotate clockwise st).score ∧
    st.score ≤ (hardDrop st).score ∧
    st.score ≤ (tapSoftDrop st).score ∧
    st.score ≤ (setSoftDrop active st).score ∧
    st.score ≤ (hold st).score ∧
    st.score ≤ (togglePause st).score := by
  refine ⟨update_score_le delta st, ?_, ?_, hardDrop_score_le st,
    tapSoftDrop_score_le st, ?_, ?_, ?_⟩
  · rw [move_score]
  · rw [rotate_score]
  · rw [setSoftDrop_score]
  · rw [hold_score]
  · rw [togglePause_score]

end Tetris

namespace Tetris

/-- Options with equal `isSome` agree on being `none`. -/
theorem none_iff_of_isSome_eq {α : Type} {a b : Option α} (h : a.isSome = b.isSome) :
    a = none ↔ b = none := by
  cases a <;> cases b <;> simp_all

/-- `tryMove` preserves the phase. -/
theorem tryMove_state (dx dy : Int) (st : State) : (tryMove dx dy st).2.state = st.state := by
  unfold tryMove
  cases st.active with
  | none => rfl
  | some p =>
    dsimp only
    split
    · split <;> rfl
    · rfl

/-- `tryMove` preserves whether a piece is active. -/
theorem tryMove_active_isSome (dx dy : Int) (st : State) :
    (tryMove dx dy st).2.active.isSome = st.active.isSome := by
  unfold tryMove
  cases ha : st.active with
  | none =>
    dsimp only
    rw [ha]
  | some p =>
    dsimp only
    split
    · split <;> simp [ha]
    · simp [ha]

/-- The gravity loop preserves the phase. -/
theorem updateGo_state (interval : ℚ) :
    ∀ (fuel : Nat) (st : State), (updateGo fuel interval st).state = st.state := by
  intro fuel
  induction fuel with
  | zero => intro st; rfl
  | succ f ih =>
    intro st
    unfold updateGo
    dsimp only
    split
    · have h1 := tryMove_state 0 1 {st with gravityTimer := st.gravityTimer - interval}
      dsimp only at h1
      split
      · rw [ih]
        split
        · dsimp only
          exact h1
        · exact h1
      · dsimp only
        exact h1
    · rfl

/-- The gravity loop preserves whether a piece is active. -/
theorem updateGo_active_isSome (interval : ℚ) :
    ∀ (fuel : Nat) (st : State), (updateGo fuel interval st).active.isSome = st.active.isSome := by
  intro fuel
  induction fuel with
  | zero => intro st; rfl
  | succ f ih =>
    intro st
    unfold updateGo
    dsimp only
    split
    · have h1 := tryMove_active_isSome 0 1 {st with gravityTimer := st.gravityTimer - interval}
      dsimp only at h1
      split
      · rw [ih]
        split
        · dsimp only
          exact h1
        · exact h1
      · dsimp only
        exact h1
    · rfl

/-- `handleLineScoring` preserves the phase. -/
theorem handleLineScoring_state (n : Nat) (st : State) :
    (handleLineScoring n st).state = st.state := by
  unfold handleLineScoring
  split <;> rfl

/-- A spawn from a playing state restores the invariant: either a piece is
active and the game is still playing, or the spawn was blocked and the game
is over with no active piece. -/
theorem spawnNextPiece_inv (st : State) (h : st.state = GamePhase.playing) :
    ((spawnNextPiece st).active = none ↔ (spawnNextPiece st).state = GamePhase.over) := by
  obtain ⟨p, q, i, g, hcase | hcase⟩ := spawnNextPiece_cases st <;> rw [hcase]
  · simp [endGame]
  · simp [h]

/-- Locking from a playing state with an active piece restores the
invariant. -/
theorem lockPiece_inv (st : State) (p : ActivePiece) (h : st.state = GamePhase.playing)
    (ha : st.active = some p) :
    ((lockPiece st).active = none ↔ (lockPiece st).state = GamePhase.over) := by
  unfold lockPiece
  rw [ha]
  dsimp only
  split
  · simp [endGame]
  · split
    · apply spawnNextPiece_inv
      rename_i hpl
      exact hpl
    · rename_i hnpl
      exfalso
      apply hnpl
      rw [handleLineScoring_state]
      exact h

end Tetris

namespace Tetris

/-- The lock-delay phase of `update` restores the invariant from a playing
state with an active piece. -/
theorem lockPhase_inv (delta : ℚ) (st2 : State) (h : st2.state = GamePhase.playing)
    (p : ActivePiece) (ha : st2.active = some p) :
    ((if st2.grounded ∧ st2.active.isSome then
        let st3 := {st2 with lockTimer := st2.lockTimer + delta}
        if LOCK_DELAY_MS ≤ st3.lockTimer then lockPiece st3 else st3
      else st2).active = none ↔
     (if st2.grounded ∧ st2.active.isSome then
        let st3 := {st2 with lockTimer := st2.lockTimer + delta}
        if LOCK_DELAY_MS ≤ st3.lockTimer then lockPiece st3 else st3
      else st2).state = GamePhase.over) := by
  split
  · dsimp only
    split
    · exact lockPiece_inv {st2 with lockTimer := st2.lockTimer + delta} p h ha
    · simp [ha, h]
  · simp [ha, h]

/-- A phase- and activeness-preserving step preserves the invariant. -/
theorem inv_transfer {s s' : State} (hstate : s'.state = s.state)
    (hact : s'.active.isSome = s.active.isSome)
    (hinv : s.active = none ↔ s.state = GamePhase.over) :
    (s'.active = none ↔ s'.state = GamePhase.over) := by
  rw [hstate, none_iff_of_isSome_eq hact]
  exact hinv

/-- `move` preserves the phase. -/
theorem move_state (direction : Int) (st : State) : (move direction st).state = st.state := by
  unfold move
  split
  · dsimp only
    split
    · dsimp only
      exact tryMove_state direction 0 st
    · exact tryMove_state direction 0 st
  · rfl

/-- `move` preserves whether a piece is active. -/
theorem move_active_isSome (direction : Int) (st : State) :
    (move direction st).active.isSome = st.active.isSome := by
  unfold move
  split
  · dsimp only
    split
    · dsimp only
      exact tryMove_active_isSome direction 0 st
    · exact tryMove_active_isSome direction 0 st
  · rfl

/-- The kick loop preserves the phase. -/
theorem rotateKicks_state (st : State) (p : ActivePiece) (toRotation : Nat) :
    ∀ kicks : List (Int × Int), (rotateKicks st p toRotation kicks).state = st.state := by
  intro kicks
  induction kicks with
  | nil => rfl
  | cons k rest ih =>
    unfold rotateKicks
    obtain ⟨ox, oy⟩ := k
    dsimp only
    split
    · exact ih
    · rfl

/-- The kick loop maps an active piece to an active piece. -/
theorem rotateKicks_active_isSome (st : State) (p : ActivePiece) (toRotation : Nat)
    (ha : st.active.isSome = true) :
    ∀ kicks : List (Int × Int), (rotateKicks st p toRotation kicks).active.isSome = true := by
  intro kicks
  induction kicks with
  | nil => exact ha
  | cons k rest ih =>
    unfold rotateKicks
    obtain ⟨ox, oy⟩ := k
    dsimp only
    split
    · exact ih
    · rfl

/-- `rotate` preserves the phase. -/
theorem rotate_state (clockwise : Bool) (st : State) : (rotate clockwise st).state = st.state := by
  unfold rotate
  cases hs : st.state <;> cases ha : st.active <;> simp [rotateKicks_state, hs]

/-- `rotate` preserves whether a piece is active. -/
theorem rotate_active_isSome (clockwise : Bool) (st : State) :
    (rotate clockwise st).active.isSome = st.active.isSome := by
  unfold rotate
  cases hs : st.state <;> cases ha : st.active
  case playing.some p =>
    dsimp only
    rw [rotateKicks_active_isSome st p _ (by rw [ha]; rfl)]
    rfl
  all_goals simp [ha]

/-- `tapSoftDrop` preserves the phase. -/
theorem tapSoftDrop_state (st : State) : (tapSoftDrop st).state = st.state := by
  unfold tapSoftDrop
  split
  · dsimp only
    split
    · dsimp only
      exact tryMove_state 0 1 st
    · exact tryMove_state 0 1 st
  · rfl

/-- `tapSoftDrop` preserves whether a piece is active. -/
theorem tapSoftDrop_active_isSome (st : State) :
    (tapSoftDrop st).active.isSome = st.active.isSome := by
  unfold tapSoftDrop
  split
  · dsimp only
    split
    · dsimp only
      exact tryMove_active_isSome 0 1 st
    · exact tryMove_active_isSome 0 1 st
  · rfl

/-- `setSoftDrop` preserves the phase. -/
theorem setSoftDrop_state (active : Bool) (st : State) :
    (setSoftDrop active st).state = st.state := by
  unfold setSoftDrop
  split
  · rfl
  · dsimp only
    split <;> rfl

/-- `setSoftDrop` preserves the active piece. -/
theorem setSoftDrop_active (active : Bool) (st : State) :
    (setSoftDrop active st).active = st.active := by
  unfold setSoftDrop
  split
  · rfl
  · dsimp only
    split <;> rfl

end Tetris

namespace Tetris

/-- `reset` establishes the invariant: a piece is active iff not game over. -/
theorem reset_inv (st : State) :
    ((reset st).active = none ↔ (reset st).state = GamePhase.over) := by
  unfold reset
  obtain ⟨q, i, hq⟩ := refillGo_fields 7 (resetFields st)
  have hq2 : refillQueue (resetFields st) = {resetFields st with queue := q, rngIdx := i} := hq
  rw [hq2]
  apply spawnNextPiece_inv
  rfl

/-- `update` preserves the invariant. -/
theorem update_inv (delta : ℚ) (st : State)
    (hinv : st.active = none ↔ st.state = GamePhase.over) :
    ((update delta st).active = none ↔ (update delta st).state = GamePhase.over) := by
  unfold update
  by_cases hg : st.state = GamePhase.playing ∧ st.active.isSome = true
  · rw [if_pos hg]
    dsimp only
    have hstate := updateGo_state
      (if st.softDropActive then SOFT_DROP_INTERVAL else st.gravityInterval)
      (updateFuel (st.gravityTimer + delta)
        (if st.softDropActive then SOFT_DROP_INTERVAL else st.gravityInterval))
      {st with gravityTimer := st.gravityTimer + delta}
    have hact := updateGo_active_isSome
      (if st.softDropActive then SOFT_DROP_INTERVAL else st.gravityInterval)
      (updateFuel (st.gravityTimer + delta)
        (if st.softDropActive then SOFT_DROP_INTERVAL else st.gravityInterval))
      {st with gravityTimer := st.gravityTimer + delta}
    have hstate2 := hstate.trans hg.1
    have hact2 := hact.trans hg.2
    obtain ⟨p2, hp2⟩ := Option.isSome_iff_exists.mp hact2
    exact lockPhase_inv delta _ hstate2 p2 hp2
  · rw [if_neg hg]
    exact hinv

end Tetris

namespace Tetris

/-- `hardDrop` preserves the invariant. -/
theorem hardDrop_inv (st : State)
    (hinv : st.active = none ↔ st.state = GamePhase.over) :
    ((hardDrop st).active = none ↔ (hardDrop st).state = GamePhase.over) := by
  unfold hardDrop
  cases hs : st.state <;> cases ha : st.active
  case playing.some p =>
    dsimp only
    split
    · exact hinv
    · apply lockPiece_inv _ {p with y := p.y + (getDropDistance st : Int)}
      · rfl
      · rfl
  all_goals dsimp only
  all_goals
    first
      | exact hinv
      | exact iff_of_true rfl (hinv.mp ha)
      | exact iff_of_false (by simp) (fun hov => absurd (hinv.mpr hov) (by simp [ha]))

/-- `hold` preserves the invariant. -/
theorem hold_inv (st : State)
    (hinv : st.active = none ↔ st.state = GamePhase.over) :
    ((hold st).active = none ↔ (hold st).state = GamePhase.over) := by
  unfold hold
  cases hs : st.state <;> cases ha : st.active
  case playing.some p =>
    dsimp only
    split
    · cases hh : st.holdPiece with
      | some swapped =>
        dsimp only
        split
        · simp [endGame]
        · simp [hs]
      | none =>
        dsimp only
        apply spawnNextPiece_inv
        rfl
    · exact hinv
  all_goals dsimp only
  all_goals
    first
      | exact hinv
      | exact iff_of_true rfl (hinv.mp ha)
      | exact iff_of_false (by simp) (fun hov => absurd (hinv.mpr hov) (by simp [ha]))

/-- `togglePause` preserves the invariant. -/
theorem togglePause_inv (st : State)
    (hinv : st.active = none ↔ st.state = GamePhase.over) :
    ((togglePause st).active = none ↔ (togglePause st).state = GamePhase.over) := by
  unfold togglePause
  cases hs : st.state
  · have hsome : ¬(st.active = none) := by
      intro hn
      rw [hinv, hs] at hn
      cases hn
    simp [hsome]
  · have hsome : ¬(st.active = none) := by
      intro hn
      rw [hinv, hs] at hn
      cases hn
    simp [hsome]
  · exact hinv

end Tetris

namespace Tetris

/-- C10: after the constructor (`reset`) and after every public command, the
active piece is null exactly when the phase is 'over': spawning and holding
either leave a piece active in a live phase or end the game nulling the
piece, and every transition to 'over' nulls the active piece. -/
theorem claim_C10_active_iff_over (st : State) (delta : ℚ) (direction : Int)
    (clockwise : Bool) (sd : Bool)
    (hinv : st.active = none ↔ st.state = GamePhase.over) :
    ((reset st).active = none ↔ (reset st).state = GamePhase.over) ∧
    ((update delta st).active = none ↔ (update delta st).state = GamePhase.over) ∧
    ((move direction st).active = none ↔ (move direction st).state = GamePhase.over) ∧
    ((rotate clockwise st).active = none ↔ (rotate clockwise st).state = GamePhase.over) ∧
    ((hardDrop st).active = none ↔ (hardDrop st).state = GamePhase.over) ∧
    ((tapSoftDrop st).active = none ↔ (tapSoftDrop st).state = GamePhase.over) ∧
    ((setSoftDrop sd st).active = none ↔ (setSoftDrop sd st).state = GamePhase.over) ∧
    ((hold st).active = none ↔ (hold st).state = GamePhase.over) ∧
    ((togglePause st).active = none ↔ (togglePause st).state = GamePhase.over) :=
  ⟨reset_inv st,
   update_inv delta st hinv,
   inv_transfer (move_state direction st) (move_active_isSome direction st) hinv,
   inv_transfer (rotate_state clockwise st) (rotate_active_isSome clockwise st) hinv,
   hardDrop_inv st hinv,
   inv_transfer (tapSoftDrop_state st) (tapSoftDrop_active_isSome st) hinv,
   inv_transfer (setSoftDrop_state sd st) (by rw [setSoftDrop_active]) hinv,
   hold_inv st hinv,
   togglePause_inv st hinv⟩

/-- C10 at a concrete input: the invariant holds for the freshly constructed
game and is preserved by every command from it. -/
theorem claim_C10_active_iff_over_witness :
    ((reset stateWithO).active = none ↔ (reset stateWithO).state = GamePhase.over) ∧
    ((update 16 stateWithO).active = none ↔ (update 16 stateWithO).state = GamePhase.over) ∧
    ((move 1 stateWithO).active = none ↔ (move 1 stateWithO).state = GamePhase.over) ∧
    ((rotate true stateWithO).active = none ↔ (rotate true stateWithO).state = GamePhase.over) ∧
    ((hardDrop stateWithO).active = none ↔ (hardDrop stateWithO).state = GamePhase.over) ∧
    ((tapSoftDrop stateWithO).active = none ↔ (tapSoftDrop stateWithO).state = GamePhase.over) ∧
    ((setSoftDrop true stateWithO).active = none ↔ (setSoftDrop true stateWithO).state = GamePhase.over) ∧
    ((hold stateWithO).active = none ↔ (hold stateWithO).state = GamePhase.over) ∧
    ((togglePause stateWithO).active = none ↔ (togglePause stateWithO).state = GamePhase.over) :=
  claim_C10_active_iff_over stateWithO 16 1 true true (by decide)

end Tetris

namespace Tetris

/-- The counting loop of `getDropDistance` stops at the first colliding
distance: given that some distance within the fuel collides, the result `r`
collides at `r + 1` and every distance strictly between the start and `r` is
collision-free. -/
theorem dropDistanceGo_spec (board : Board) (t : PieceType) (x y : Int) (rot : Nat) :
    ∀ (f d : Nat), collides board t x (y + (d + f) + 1) rot = true →
      d ≤ dropDistanceGo board t x y rot f d ∧
      collides board t x (y + (dropDistanceGo board t x y rot f d) + 1) rot = true ∧
      (∀ j : Nat, d ≤ j → j < dropDistanceGo board t x y rot f d →
        collides board t x (y + j + 1) rot = false) := by
  intro f
  induction f with
  | zero =>
    intro d hH
    simp only [dropDistanceGo]
    refine ⟨le_refl d, ?_, ?_⟩
    · simpa using hH
    · intro j h1 h2
      omega
  | succ f ih =>
    intro d hH
    unfold dropDistanceGo
    by_cases hc : collides board t x (y + d + 1) rot = true
    · rw [if_pos hc]
      exact ⟨le_refl d, hc, fun j h1 h2 => absurd h1 (by omega)⟩
    · rw [if_neg hc]
      have hH' : collides board t x (y + ((d + 1) + f) + 1) rot = true := by
        have heq : (y + ((d : Int) + 1 + (f : Int)) + 1)
            = (y + ((d : Int) + ((f + 1 : Nat) : Int)) + 1) := by
          push_cast
          ring
        rw [heq]
        exact hH
      obtain ⟨hle, hcol, hfree⟩ := ih (d + 1) hH'
      refine ⟨by omega, hcol, ?_⟩
      intro j h1 h2
      by_cases hj : j = d
      · subst hj
        exact Bool.not_eq_true _ ▸ (by simpa using hc)
      · exact hfree j (by omega) h2

/-- Every rotation matrix of every piece has at least one occupied cell. -/
theorem getMatrix_has_cell (t : PieceType) (rot : Nat) :
    ∃ row, row < (getMatrix t rot).length ∧
      ∃ col, col < ((getMatrix t rot).getD row []).length ∧
        ((getMatrix t rot).getD row []).getD col false = true := by
  have h4 : (TETROMINO_SHAPES t).length = 4 := by cases t <;> rfl
  simp only [getMatrix]
  rw [h4]
  have hmod : rot % 4 = 0 ∨ rot % 4 = 1 ∨ rot % 4 = 2 ∨ rot % 4 = 3 := by omega
  rcases hmod with h | h | h | h <;> rw [h] <;> cases t <;> decide

/-- `getDropDistance` computes the distance to first contact: the landing
position one further down collides, and every intermediate downward
translation is collision-free. -/
theorem getDropDistance_spec (st : State) (p : ActivePiece) (ha : st.active = some p) :
    collides st.board p.type p.x (p.y + getDropDistance st + 1) p.rotation = true ∧
    (∀ j : Nat, 1 ≤ j → j ≤ getDropDistance st →
      collides st.board p.type p.x (p.y + j) p.rotation = false) := by
  have hfuel : collides st.board p.type p.x
      (p.y + ((0 + (((TOTAL_ROWS : Int) - p.y).toNat + TOTAL_ROWS + 1) : Nat)) + 1)
      p.rotation = true := by
    obtain ⟨row, hrow, col, hcol, hcell⟩ := getMatrix_has_cell p.type p.rotation
    apply (collides_spec _ _ _ _ _).mpr
    refine ⟨row, hrow, col, hcol, hcell, ?_⟩
    right; right; left
    have htr : (TOTAL_ROWS : Int) = 22 := by rfl
    omega
  have hD : getDropDistance st
      = dropDistanceGo st.board p.type p.x p.y p.rotation
          (((TOTAL_ROWS : Int) - p.y).toNat + TOTAL_ROWS + 1) 0 := by
    unfold getDropDistance
    rw [ha]
  obtain ⟨hle, hcol, hfree⟩ :=
    dropDistanceGo_spec st.board p.type p.x p.y p.rotation
      ((((TOTAL_ROWS : Int) - p.y).toNat + TOTAL_ROWS + 1)) 0 hfuel
  rw [← hD] at hcol hfree
  refine ⟨hcol, ?_⟩
  intro j h1 h2
  have hj : ∃ j0 : Nat, j = j0 + 1 := ⟨j - 1, by omega⟩
  obtain ⟨j0, rfl⟩ := hj
  have := hfree j0 (by omega) (by omega)
  have hcast : (p.y + ((j0 + 1 : Nat) : Int)) = p.y + (j0 : Int) + 1 := by
    push_cast
    ring
  rw [hcast]
  exact this

end Tetris

namespace Tetris

/-- C8 counterexample: with an overhang (occupied cell at row 2 under empty
rows 5-6 and beyond), the drop distance computed for the O piece at spawn is
1 — the distance to first contact — yet translating the piece down by 6 rows
does not collide, so 1 is not the maximal non-colliding translation the claim
asserts. -/
theorem claim_C8_counterexample_overhang :
    stateOverhang.state = GamePhase.playing ∧
    stateOverhang.active = some (createPiece PieceType.O) ∧
    getDropDistance stateOverhang = 1 ∧
    collides stateOverhang.board PieceType.O 3 (-1 + (6 : Int)) 0 = false ∧
    (1 : Nat) < 6 := by
  refine ⟨rfl, rfl, by decide, by decide, by decide⟩

/-- C8 (amended): in the playing phase with an active piece, `hardDrop`
computes the distance to first contact — the maximal d such that every
downward translation by 1..d is collision-free, the translation by d+1
colliding; with d = 0 it is a no-op, and otherwise it moves the piece down d
rows, adds 2 x d to the score and locks immediately. -/
theorem claim_C8_hardDrop (st : State) (p : ActivePiece)
    (hs : st.state = GamePhase.playing) (ha : st.active = some p) :
    collides st.board p.type p.x (p.y + getDropDistance st + 1) p.rotation = true ∧
    (∀ j : Nat, 1 ≤ j → j ≤ getDropDistance st →
      collides st.board p.type p.x (p.y + j) p.rotation = false) ∧
    (getDropDistance st = 0 → hardDrop st = st) ∧
    (0 < getDropDistance st →
      hardDrop st =
        lockPiece {st with active := some {p with y := p.y + (getDropDistance st : Int)},
                           score := st.score + getDropDistance st * 2}) ∧
    ((hardDrop stateWithO).score = stateWithO.score + 21 * 2 ∧
     (hardDrop stateWithO).state = GamePhase.playing ∧
     (hardDrop stateWithO).active.isSome = true ∧
     ((hardDrop stateWithO).board.getD 20 []).getD 3 none = some PieceType.O ∧
     ((hardDrop stateWithO).board.getD 20 []).getD 4 none = some PieceType.O ∧
     ((hardDrop stateWithO).board.getD 21 []).getD 3 none = some PieceType.O ∧
     ((hardDrop stateWithO).board.getD 21 []).getD 4 none = some PieceType.O) := by
  obtain ⟨hcol, hfree⟩ := getDropDistance_spec st p ha
  refine ⟨hcol, hfree, ?_, ?_, by decide, by decide, by decide, by decide, by decide,
    by decide, by decide⟩
  · intro h0
    unfold hardDrop
    rw [hs, ha]
    dsimp only
    rw [if_pos h0]
  · intro hpos
    unfold hardDrop
    rw [hs, ha]
    dsimp only
    rw [if_neg (by omega)]

/-- C8 at a concrete input: the O piece freshly spawned on the empty board
drops 21 rows to the floor. -/
theorem claim_C8_hardDrop_witness :
    collides stateWithO.board (createPiece PieceType.O).type (createPiece PieceType.O).x
      ((createPiece PieceType.O).y + getDropDistance stateWithO + 1)
      (createPiece PieceType.O).rotation = true ∧
    (∀ j : Nat, 1 ≤ j → j ≤ getDropDistance stateWithO →
      collides stateWithO.board (createPiece PieceType.O).type (createPiece PieceType.O).x
        ((createPiece PieceType.O).y + j) (createPiece PieceType.O).rotation = false) ∧
    (getDropDistance stateWithO = 0 → hardDrop stateWithO = stateWithO) ∧
    (0 < getDropDistance stateWithO →
      hardDrop stateWithO =
        lockPiece {stateWithO with
          active := some {createPiece PieceType.O with
            y := (createPiece PieceType.O).y + (getDropDistance stateWithO : Int)},
          score := stateWithO.score + getDropDistance stateWithO * 2}) ∧
    ((hardDrop stateWithO).score = stateWithO.score + 21 * 2 ∧
     (hardDrop stateWithO).state = GamePhase.playing ∧
     (hardDrop stateWithO).active.isSome = true ∧
     ((hardDrop stateWithO).board.getD 20 []).getD 3 none = some PieceType.O ∧
     ((hardDrop stateWithO).board.getD 20 []).getD 4 none = some PieceType.O ∧
     ((hardDrop stateWithO).board.getD 21 []).getD 3 none = some PieceType.O ∧
     ((hardDrop stateWithO).board.getD 21 []).getD 4 none = some PieceType.O) :=
  claim_C8_hardDrop stateWithO (createPiece PieceType.O) rfl rfl

end Tetris

namespace Tetris

set_option maxRecDepth 40000

/-- C4 counterexample: with the O piece resting on the floor, gravity timer
at 900 of a 1000 ms interval and soft drop off, `update(100)` reaches the
interval, consumes it (gravity timer drops to 0) and only then fails the
step, marking the piece grounded — the claim says the interval is not
consumed for the failed attempt, which would leave the timer at 900 + 100. -/
theorem claim_C4_counterexample_consume :
    stateBottomO.state = GamePhase.playing ∧
    stateBottomO.softDropActive = false ∧
    stateBottomO.gravityInterval = 1000 ∧
    stateBottomO.gravityTimer = 900 ∧
    (update 100 stateBottomO).grounded = true ∧
    (update 100 stateBottomO).active = stateBottomO.active ∧
    (update 100 stateBottomO).gravityTimer = 0 ∧
    ((0 : ℚ) = 900 + 100 - 1000 ∧ (0 : ℚ) ≠ 900 + 100) := by
  refine ⟨rfl, rfl, rfl, rfl, ?_, ?_, ?_, ?_, ?_⟩ <;> with_unfolding_all decide

/-- The fuel chosen by `update` strictly dominates the number of gravity
steps: the accumulated timer is below fuel times the interval. -/
theorem updateFuel_spec (t I : ℚ) (hI : 0 < I) : t < (updateFuel t I) * I := by
  unfold updateFuel
  rw [if_neg (not_le.mpr hI)]
  have hle : ((⌈t / I⌉ : Int) : ℚ) ≤ ((⌈t / I⌉.toNat : Int) : ℚ) := by
    exact_mod_cast Int.self_le_toNat _
  have h3 : t / I < ((⌈t / I⌉.toNat : ℚ) + 1) := by
    have hceil := Int.le_ceil (t / I)
    push_cast at hle
    linarith
  have h4 : t / I * I < ((⌈t / I⌉.toNat : ℚ) + 1) * I :=
    mul_lt_mul_of_pos_right h3 hI
  rw [div_mul_cancel₀ t (ne_of_gt hI)] at h4
  calc t < ((⌈t / I⌉.toNat : ℚ) + 1) * I := h4
    _ = ((⌈t / I⌉.toNat + 1 : Nat) : ℚ) * I := by push_cast; ring

/-- `tryMove(0, 1)` on a state with active piece `p`: blocked when one row
down collides (the piece becomes grounded), else the piece descends one row,
the lock timer resets and grounded is recomputed one further row down. -/
theorem tryMove01_eq (st : State) (p : ActivePiece) (ha : st.active = some p) :
    tryMove 0 1 st =
      (if collides st.board p.type p.x (p.y + 1) p.rotation then
        (false, {st with grounded := true})
      else
        (true, {st with active := some {p with y := p.y + 1}, lockTimer := 0,
                        grounded := collides st.board p.type p.x (p.y + 2) p.rotation})) := by
  unfold tryMove
  rw [ha]
  dsimp only
  simp only [Int.add_zero]
  split
  · rw [if_pos (by decide)]
  · unfold checkGrounded
    dsimp only
    have heq : p.y + 1 + 1 = p.y + 2 := by ring
    rw [heq]

end Tetris

namespace Tetris

/-- The state unchanged is the gravity-loop record for zero steps and no
block. -/
theorem zero_step_record (st : State) (p : ActivePiece) (ha : st.active = some p) (I : ℚ) :
    st = {st with
      active := some {p with y := p.y + ((0:Nat) : Int)},
      gravityTimer := st.gravityTimer - (((0:Nat) : ℚ) + (if false then 1 else 0)) * I,
      score := st.score + (if st.softDropActive then 0 else 0),
      grounded := (if false then true else if (0:Nat) = 0 then st.grounded
                   else collides st.board p.type p.x (p.y + (0:Nat) + 1) p.rotation),
      lockTimer := (if (0:Nat) = 0 then st.lockTimer else 0)} := by
  symm
  ext <;> simp [ha]

end Tetris

namespace Tetris

/-- One iteration of the gravity loop with the guard satisfied: a blocked
descent consumes the interval and grounds the piece ending the loop; a
successful descent consumes the interval, moves the piece down, resets the
lock timer, recomputes grounded, scores one point when soft-dropping, and the
loop continues. -/
theorem updateGo_succ_step (I : ℚ) (f : Nat) (st : State) (p : ActivePiece)
    (ha : st.active = some p) (hg : I ≤ st.gravityTimer) :
    updateGo (f + 1) I st =
      if collides st.board p.type p.x (p.y + 1) p.rotation then
        {st with gravityTimer := st.gravityTimer - I, grounded := true}
      else
        updateGo f I
          (if st.softDropActive then
            {st with gravityTimer := st.gravityTimer - I,
                     active := some {p with y := p.y + 1}, lockTimer := 0,
                     grounded := collides st.board p.type p.x (p.y + 2) p.rotation,
                     score := st.score + 1}
          else
            {st with gravityTimer := st.gravityTimer - I,
                     active := some {p with y := p.y + 1}, lockTimer := 0,
                     grounded := collides st.board p.type p.x (p.y + 2) p.rotation}) := by
  conv_lhs => unfold updateGo
  rw [if_pos ⟨hg, by rw [ha]; rfl⟩]
  dsimp only
  rw [tryMove01_eq {st with gravityTimer := st.gravityTimer - I} p (by show st.active = some p; exact ha)]
  dsimp only
  split
  · dsimp only
    rfl
  · dsimp only
    rw [if_pos rfl]

end Tetris

namespace Tetris

/-- The gravity loop exits immediately when the timer is below the
interval. -/
theorem updateGo_stop (I : ℚ) (fuel : Nat) (st : State)
    (h : ¬(I ≤ st.gravityTimer)) : updateGo fuel I st = st := by
  cases fuel with
  | zero => rfl
  | succ f =>
    conv_lhs => unfold updateGo
    rw [if_neg (fun hc => h hc.1)]

end Tetris

namespace Tetris

/-- Boolean negation of a collision test. -/
theorem collides_eq_false {board : Board} {t : PieceType} {x y : Int} {rot : Nat}
    (h : ¬(collides board t x y rot = true)) : collides board t x y rot = false := by
  revert h
  cases collides board t x y rot <;> simp

/-- The gravity loop characterized: `k` one-row descents succeed, each into a
collision-free position; the loop stops either with the timer below the
interval (`blocked = false`) or on a blocked descent (`blocked = true`), and
every attempted descent — the failed one included — consumed one interval
from the timer.  Each successful descent resets the lock timer and scores a
point under soft drop; grounded ends true on a block, is recomputed at the
final position after a descent, and is untouched otherwise. -/
theorem updateGo_spec (I : ℚ) (hI : 0 < I) :
    ∀ (fuel : Nat) (st : State) (p : ActivePiece), st.active = some p →
      st.gravityTimer < fuel * I →
      ∃ (k : Nat) (blocked : Bool),
        (∀ j : Nat, j < k →
          collides st.board p.type p.x (p.y + j + 1) p.rotation = false) ∧
        (blocked = true →
          collides st.board p.type p.x (p.y + k + 1) p.rotation = true ∧
          ((k : ℚ) + 1) * I ≤ st.gravityTimer) ∧
        (blocked = false →
          st.gravityTimer - k * I < I ∧ (k = 0 ∨ (k : ℚ) * I ≤ st.gravityTimer)) ∧
        updateGo fuel I st =
          {st with
            active := some {p with y := p.y + (k : Int)},
            gravityTimer := st.gravityTimer - ((k : ℚ) + (if blocked then 1 else 0)) * I,
            score := st.score + (if st.softDropActive then k else 0),
            grounded := (if blocked then true
                         else if k = 0 then st.grounded
                         else collides st.board p.type p.x (p.y + k + 1) p.rotation),
            lockTimer := (if k = 0 then st.lockTimer else 0)} := by
  intro fuel
  induction fuel with
  | zero =>
    intro st p ha htimer
    rw [Nat.cast_zero, zero_mul] at htimer
    refine ⟨0, false, by omega, by simp, ?_, ?_⟩
    · intro _
      rw [Nat.cast_zero, zero_mul, sub_zero]
      exact ⟨by linarith, Or.inl rfl⟩
    · exact zero_step_record st p ha I
  | succ f ih =>
    intro st p ha htimer
    by_cases hg : I ≤ st.gravityTimer
    · rw [updateGo_succ_step I f st p ha hg]
      by_cases hcol : collides st.board p.type p.x (p.y + 1) p.rotation = true
      · -- the first descent is blocked
        rw [if_pos hcol]
        refine ⟨0, true, by omega, ?_, by simp, ?_⟩
        · intro _
          constructor
          · rw [show (p.y + ((0:Nat) : Int) + 1) = p.y + 1 by push_cast; ring]
            exact hcol
          · rw [Nat.cast_zero, zero_add, one_mul]
            exact hg
        · symm
          ext <;> simp [ha]
      · -- the first descent succeeds
        rw [if_neg hcol]
        have hcol0 := collides_eq_false hcol
        split
        · -- soft drop active: the descent scored a point
          rename_i hsd
          obtain ⟨k, b, hfree, hB, hC, heq⟩ := ih
            {st with gravityTimer := st.gravityTimer - I,
                     active := some {p with y := p.y + 1}, lockTimer := 0,
                     grounded := collides st.board p.type p.x (p.y + 2) p.rotation,
                     score := st.score + 1}
            {p with y := p.y + 1} rfl (by dsimp only; push_cast at htimer ⊢; linarith)
          dsimp only at hfree hB hC heq
          refine ⟨k + 1, b, ?_, ?_, ?_, ?_⟩
          · intro j hj
            rcases Nat.eq_zero_or_pos j with rfl | hjpos
            · rw [show (p.y + ((0:Nat) : Int) + 1) = p.y + 1 by push_cast; ring]
              exact hcol0
            · have h1 := hfree (j - 1) (by omega)
              rw [show (p.y + 1 + ((j - 1 : Nat) : Int) + 1) = p.y + (j : Int) + 1 by
                push_cast; omega] at h1
              exact h1
          · intro hb
            obtain ⟨hB1, hB2⟩ := hB hb
            constructor
            · rw [show (p.y + ((k + 1 : Nat) : Int) + 1) = p.y + 1 + (k : Int) + 1 by
                push_cast; ring]
              exact hB1
            · push_cast at hB2 ⊢
              linarith
          · intro hb
            obtain ⟨hC1, hC2⟩ := hC hb
            constructor
            · push_cast at hC1 ⊢
              linarith
            · right
              rcases hC2 with rfl | hC2
              · push_cast
                linarith
              · push_cast at hC2 ⊢
                linarith
          · rw [heq]
            refine State.ext rfl rfl ?_ rfl rfl ?_ rfl ?_ ?_ rfl rfl ?_ rfl rfl rfl rfl rfl rfl
            · -- active
              dsimp only
              simp only [Option.some.injEq]
              refine ActivePiece.ext rfl rfl rfl ?_
              dsimp only
              push_cast
              ring
            · -- gravityTimer
              dsimp only
              push_cast
              ring
            · -- lockTimer
              dsimp only
              rcases Nat.eq_zero_or_pos k with rfl | hkpos
              · rw [if_pos rfl, if_neg (by omega)]
              · rw [if_neg (by omega), if_neg (by omega)]
            · -- grounded
              dsimp only
              cases b with
              | true => rfl
              | false =>
                rw [if_neg (show ¬(false = true) by decide),
                    if_neg (show ¬(false = true) by decide)]
                rcases Nat.eq_zero_or_pos k with rfl | hkpos
                · rw [if_pos rfl, if_neg (by omega)]
                  rw [show (p.y + ((0 + 1 : Nat) : Int) + 1) = p.y + 2 by push_cast; ring]
                · rw [if_neg (by omega), if_neg (by omega)]
                  rw [show (p.y + 1 + (k : Int) + 1) = p.y + ((k + 1 : Nat) : Int) + 1 by
                    push_cast; ring]
            · -- score
              dsimp only
              simp [hsd]
              omega
        · -- soft drop inactive
          rename_i hsd
          obtain ⟨k, b, hfree, hB, hC, heq⟩ := ih
            {st with gravityTimer := st.gravityTimer - I,
                     active := some {p with y := p.y + 1}, lockTimer := 0,
                     grounded := collides st.board p.type p.x (p.y + 2) p.rotation}
            {p with y := p.y + 1} rfl (by dsimp only; push_cast at htimer ⊢; linarith)
          dsimp only at hfree hB hC heq
          refine ⟨k + 1, b, ?_, ?_, ?_, ?_⟩
          · intro j hj
            rcases Nat.eq_zero_or_pos j with rfl | hjpos
            · rw [show (p.y + ((0:Nat) : Int) + 1) = p.y + 1 by push_cast; ring]
              exact hcol0
            · have h1 := hfree (j - 1) (by omega)
              rw [show (p.y + 1 + ((j - 1 : Nat) : Int) + 1) = p.y + (j : Int) + 1 by
                push_cast; omega] at h1
              exact h1
          · intro hb
            obtain ⟨hB1, hB2⟩ := hB hb
            constructor
            · rw [show (p.y + ((k + 1 : Nat) : Int) + 1) = p.y + 1 + (k : Int) + 1 by
                push_cast; ring]
              exact hB1
            · push_cast at hB2 ⊢
              linarith
          · intro hb
            obtain ⟨hC1, hC2⟩ := hC hb
            constructor
            · push_cast at hC1 ⊢
              linarith
            · right
              rcases hC2 with rfl | hC2
              · push_cast
                linarith
              · push_cast at hC2 ⊢
                linarith
          · rw [heq]
            refine State.ext rfl rfl ?_ rfl rfl ?_ rfl ?_ ?_ rfl rfl ?_ rfl rfl rfl rfl rfl rfl
            · -- active
              dsimp only
              simp only [Option.some.injEq]
              refine ActivePiece.ext rfl rfl rfl ?_
              dsimp only
              push_cast
              ring
            · -- gravityTimer
              dsimp only
              push_cast
              ring
            · -- lockTimer
              dsimp only
              rcases Nat.eq_zero_or_pos k with rfl | hkpos
              · rw [if_pos rfl, if_neg (by omega)]
              · rw [if_neg (by omega), if_neg (by omega)]
            · -- grounded
              dsimp only
              cases b with
              | true => rfl
              | false =>
                rw [if_neg (show ¬(false = true) by decide),
                    if_neg (show ¬(false = true) by decide)]
                rcases Nat.eq_zero_or_pos k with rfl | hkpos
                · rw [if_pos rfl, if_neg (by omega)]
                  rw [show (p.y + ((0 + 1 : Nat) : Int) + 1) = p.y + 2 by push_cast; ring]
                · rw [if_neg (by omega), if_neg (by omega)]
                  rw [show (p.y + 1 + (k : Int) + 1) = p.y + ((k + 1 : Nat) : Int) + 1 by
                    push_cast; ring]
            · -- score
              dsimp only
              simp [hsd]
    · rw [updateGo_stop I (f + 1) st hg]
      refine ⟨0, false, by omega, by simp, ?_, ?_⟩
      · intro _
        rw [Nat.cast_zero, zero_mul, sub_zero]
        exact ⟨by linarith [not_le.mp hg], Or.inl rfl⟩
      · exact zero_step_record st p ha I

end Tetris

namespace Tetris

/-- C4 (amended): in the playing phase with an active piece, `update(delta)`
accumulates `delta` into the gravity timer, then repeatedly steps the piece
down one row while the timer is at least the active interval (the soft-drop
interval when soft drop is held, else the level-derived gravity interval);
the interval is consumed from the timer on every attempted step — including
the final failed one, which marks the piece grounded and stops stepping — a
successful step scores 1 point when soft-dropping and resets the lock timer;
finally, when grounded, `delta` accumulates into the lock timer and the piece
locks once that timer reaches the 500 ms threshold. -/
theorem claim_C4_update_gravity (st : State) (p : ActivePiece) (delta : ℚ)
    (hs : st.state = GamePhase.playing) (ha : st.active = some p)
    (hI : 0 < (if st.softDropActive then SOFT_DROP_INTERVAL else st.gravityInterval)) :
    ∃ (k : Nat) (blocked : Bool) (s2 : State),
      s2 = {st with
        active := some {p with y := p.y + (k : Int)},
        gravityTimer := st.gravityTimer + delta -
          ((k : ℚ) + (if blocked then 1 else 0)) *
            (if st.softDropActive then SOFT_DROP_INTERVAL else st.gravityInterval),
        score := st.score + (if st.softDropActive then k else 0),
        grounded := (if blocked then true
                     else if k = 0 then st.grounded
                     else collides st.board p.type p.x (p.y + k + 1) p.rotation),
        lockTimer := (if k = 0 then st.lockTimer else 0)} ∧
      (∀ j : Nat, j < k →
        collides st.board p.type p.x (p.y + j + 1) p.rotation = false) ∧
      (blocked = true →
        collides st.board p.type p.x (p.y + k + 1) p.rotation = true ∧
        ((k : ℚ) + 1) * (if st.softDropActive then SOFT_DROP_INTERVAL else st.gravityInterval)
          ≤ st.gravityTimer + delta) ∧
      (blocked = false →
        st.gravityTimer + delta -
            (k : ℚ) * (if st.softDropActive then SOFT_DROP_INTERVAL else st.gravityInterval)
          < (if st.softDropActive then SOFT_DROP_INTERVAL else st.gravityInterval) ∧
        (k = 0 ∨
          (k : ℚ) * (if st.softDropActive then SOFT_DROP_INTERVAL else st.gravityInterval)
            ≤ st.gravityTimer + delta)) ∧
      update delta st =
        (if s2.grounded ∧ s2.active.isSome then
          if LOCK_DELAY_MS ≤ s2.lockTimer + delta then
            lockPiece {s2 with lockTimer := s2.lockTimer + delta}
          else {s2 with lockTimer := s2.lockTimer + delta}
        else s2) := by
  obtain ⟨k, b, h1, h2, h3, heq⟩ := updateGo_spec
    (if st.softDropActive then SOFT_DROP_INTERVAL else st.gravityInterval) hI
    (updateFuel (st.gravityTimer + delta)
      (if st.softDropActive then SOFT_DROP_INTERVAL else st.gravityInterval))
    {st with gravityTimer := st.gravityTimer + delta} p
    (by show st.active = some p; exact ha)
    (updateFuel_spec (st.gravityTimer + delta)
      (if st.softDropActive then SOFT_DROP_INTERVAL else st.gravityInterval) hI)
  dsimp only at h1 h2 h3 heq
  refine ⟨k, b, _, rfl, h1, h2, h3, ?_⟩
  unfold update
  rw [if_pos ⟨hs, by rw [ha]; rfl⟩]
  dsimp only
  rw [heq]

end Tetris

namespace Tetris

/-- C4 at a concrete input: one 16 ms tick of the freshly spawned O piece. -/
theorem claim_C4_update_gravity_witness :
    ∃ (k : Nat) (blocked : Bool) (s2 : State),
      s2 = {stateWithO with
        active := some {createPiece PieceType.O with
          y := (createPiece PieceType.O).y + (k : Int)},
        gravityTimer := stateWithO.gravityTimer + 16 -
          ((k : ℚ) + (if blocked then 1 else 0)) *
            (if stateWithO.softDropActive then SOFT_DROP_INTERVAL
             else stateWithO.gravityInterval),
        score := stateWithO.score + (if stateWithO.softDropActive then k else 0),
        grounded := (if blocked then true
                     else if k = 0 then stateWithO.grounded
                     else collides stateWithO.board (createPiece PieceType.O).type
                       (createPiece PieceType.O).x
                       ((createPiece PieceType.O).y + k + 1)
                       (createPiece PieceType.O).rotation),
        lockTimer := (if k = 0 then stateWithO.lockTimer else 0)} ∧
      (∀ j : Nat, j < k →
        collides stateWithO.board (createPiece PieceType.O).type
          (createPiece PieceType.O).x ((createPiece PieceType.O).y + j + 1)
          (createPiece PieceType.O).rotation = false) ∧
      (blocked = true →
        collides stateWithO.board (createPiece PieceType.O).type
          (createPiece PieceType.O).x ((createPiece PieceType.O).y + k + 1)
          (createPiece PieceType.O).rotation = true ∧
        ((k : ℚ) + 1) * (if stateWithO.softDropActive then SOFT_DROP_INTERVAL
            else stateWithO.gravityInterval)
          ≤ stateWithO.gravityTimer + 16) ∧
      (blocked = false →
        stateWithO.gravityTimer + 16 -
            (k : ℚ) * (if stateWithO.softDropActive then SOFT_DROP_INTERVAL
              else stateWithO.gravityInterval)
          < (if stateWithO.softDropActive then SOFT_DROP_INTERVAL
             else stateWithO.gravityInterval) ∧
        (k = 0 ∨
          (k : ℚ) * (if stateWithO.softDropActive then SOFT_DROP_INTERVAL
              else stateWithO.gravityInterval)
            ≤ stateWithO.gravityTimer + 16)) ∧
      update 16 stateWithO =
        (if s2.grounded ∧ s2.active.isSome then
          if LOCK_DELAY_MS ≤ s2.lockTimer + 16 then
            lockPiece {s2 with lockTimer := s2.lockTimer + 16}
          else {s2 with lockTimer := s2.lockTimer + 16}
        else s2) :=
  claim_C4_update_gravity stateWithO (createPiece PieceType.O) 16 rfl rfl
    (by show (0:ℚ) < 1000; norm_num)

end Tetris
